import Mathlib

/-!
Shallow embedding of the `@synpatico/genome` structure-id engine
(`src/index.ts`): deterministic hierarchical structure identifiers for
JavaScript value trees, with a collision counter, identity caches and
export/import of the process-wide naming state.

JavaScript values are modelled by `JSVal` (scalars by their `typeof`
category, references as addresses into an explicit `Heap`), so object
identity, `WeakMap` keys and circular object graphs are all expressible.
`Map`/`Record` state is modelled by association lists with JS `Map.set`
update semantics (`setAssoc`).  `Array.prototype.sort()` on strings is
modelled by a stable insertion sort under the code-unit order.
`BigInt` arithmetic is modelled by `Int`.
-/

namespace Genome

/-! ## JS string sort order (`Array.prototype.sort` default comparator) -/

/-- Lexicographic code-unit comparison of strings as character lists:
the default JS `sort()` comparator order. -/
def charListLe : List Char → List Char → Bool
  | [], _ => true
  | _ :: _, [] => false
  | a :: as, b :: bs =>
    if a < b then true
    else if b < a then false
    else charListLe as bs

/-- `a` sorts no later than `b` under the default JS string sort. -/
def jsStrLe (a b : String) : Prop := charListLe a.toList b.toList = true

instance : DecidableRel jsStrLe := fun a b => by unfold jsStrLe; infer_instance

/-- Model of `Array.prototype.sort()` on an array of strings (a stable
comparison sort under the default comparator). -/
def sortStrings (l : List String) : List String := l.insertionSort jsStrLe

/-- Order on level-hash entries by numeric level, modelling
`.sort(([a], [b]) => Number(a) - Number(b))`. -/
def levelLe (p q : Nat × Int) : Prop := p.1 ≤ q.1

instance : DecidableRel levelLe := fun p q => by unfold levelLe; infer_instance

/-- Model of sorting `Object.entries(levelHashes)` by numeric level. -/
def sortLevelEntries (m : List (Nat × Int)) : List (Nat × Int) := m.insertionSort levelLe

/-! ## Association lists with JS `Map` update semantics -/

/-- `Map.set` / record-field assignment: update the entry in place if the
key is present, otherwise append a new entry (JS `Map` preserves insertion
order and `set` on an existing key keeps its position). -/
def setAssoc {α β : Type} [DecidableEq α] : List (α × β) → α → β → List (α × β)
  | [], k, v => [(k, v)]
  | p :: m, k, v => if p.1 = k then (k, v) :: m else p :: setAssoc m k v

/-- `Map.delete`. -/
def eraseAssoc {α β : Type} [DecidableEq α] (m : List (α × β)) (k : α) : List (α × β) :=
  m.filter (fun p => decide (p.1 ≠ k))

/-! ## `String.prototype.split("-")` -/

/-- Splitting a character list at `'-'`, accumulator-style; models
`id.split("-")` (which yields `[""]` on the empty string and keeps empty
trailing fields). -/
def splitDashChars : List Char → List Char → List (List Char)
  | [], acc => [acc.reverse]
  | c :: cs, acc =>
    if c = '-' then acc.reverse :: splitDashChars cs []
    else splitDashChars cs (c :: acc)

/-- Model of `s.split("-")`. -/
def jsSplitDash (s : String) : List String :=
  (splitDashChars s.toList []).map List.asString

/-- Model of `Array.prototype.join(sep)`: empty array gives `""`,
otherwise the parts interleaved with the separator. -/
def jsJoin (sep : String) : List String → String
  | [] => ""
  | [a] => a
  | a :: rest => a ++ sep ++ jsJoin sep rest

/-! ## External hash primitive -/

/-- Modelled from the spec: the external 32-bit hash primitive
(`xxHash32` from the module `./hash`, which is not part of the core
source; spec §6 treats it as a pluggable external function).  Its
contract is a deterministic map from strings to 8 lowercase hex
characters, i.e. — once parsed base-16 as in `getBit` — a natural number
below `2^32`, stable across processes.  We model that parsed integer
directly by a simple deterministic 32-bit fold; no claim in this
development depends on particular hash values. -/
def xxHash32 (s : String) : Nat :=
  s.toList.foldl (fun acc c => (acc * 31 + c.toNat) % 4294967296) 2166136261 % 4294967296

/-! ## Values and heap -/

/-- A JavaScript value: scalars are represented by their runtime category
(their payload never influences a structure id), reference values by a
heap address, so that object identity and cyclic graphs are expressible. -/
inductive JSVal where
  | vnum   : JSVal
  | vstr   : JSVal
  | vbool  : JSVal
  | vbig   : JSVal
  | vundef : JSVal
  | vsym   : JSVal
  | vfunc  : JSVal
  | vnull  : JSVal
  | ref    : Nat → JSVal
deriving DecidableEq, Repr

/-- A heap object: a plain object with insertion-ordered fields, or an
array. -/
inductive HeapObj where
  | obj : List (String × JSVal) → HeapObj
  | arr : List JSVal → HeapObj
deriving DecidableEq, Repr

/-- The JS heap: address `a` denotes `h[a]`. -/
abbrev Heap := List HeapObj

/-- Heap lookup; a dangling address behaves as an empty object (real JS
reference values always point at a live object, so this default is never
exercised by faithful inputs). -/
def heapGet (h : Heap) (a : Nat) : HeapObj := h.getD a (.obj [])

/-- `Array.isArray` on the object at address `a`. -/
def isArr (h : Heap) (a : Nat) : Bool :=
  match heapGet h a with
  | .obj _ => false
  | .arr _ => true

/-- The field list of the (plain) object at address `a`. -/
def objFields (h : Heap) (a : Nat) : List (String × JSVal) :=
  match heapGet h a with
  | .obj fs => fs
  | .arr _ => []

/-- The element list of the array at address `a`. -/
def arrElems (h : Heap) (a : Nat) : List JSVal :=
  match heapGet h a with
  | .obj _ => []
  | .arr es => es

/-- The host `typeof` operator (`typeof null` is `"object"`). -/
def typeofV : JSVal → String
  | .vnum => "number"
  | .vstr => "string"
  | .vbool => "boolean"
  | .vbig => "bigint"
  | .vundef => "undefined"
  | .vsym => "symbol"
  | .vfunc => "function"
  | .vnull => "object"
  | .ref _ => "object"

/-- `getType` (source lines 172-177): `null`, `undefined` and arrays get
their own names, everything else reports `typeof`. -/
def getType (h : Heap) (v : JSVal) : String :=
  match v with
  | .vnull => "null"
  | .vundef => "undefined"
  | .ref a => if isArr h a then "array" else "object"
  | _ => typeofV v

/-- `TYPE_BITS[t] || BigInt(0)` (source lines 12-23): the per-category
power-of-two discriminant, with the zero fallback for unrecognized
categories (e.g. `"function"`). -/
def typeBits : String → Int
  | "root" => 0
  | "number" => 1
  | "string" => 2
  | "boolean" => 4
  | "bigint" => 8
  | "null" => 16
  | "undefined" => 32
  | "symbol" => 64
  | "object" => 128
  | "array" => 256
  | _ => 0

/-- Whether a value is a reference (record or sequence). -/
def isRefV : JSVal → Bool
  | .ref _ => true
  | _ => false

/-- The identifier the entry point returns for a non-reference root:
`` `L0:${TYPE_BITS[typeof obj] || 0}-L1:${TYPE_BITS[typeof obj] || 0}` ``
(source line 155). -/
def scalarIdOf (v : JSVal) : String :=
  "L0:" ++ toString (typeBits (typeofV v)) ++ "-L1:" ++ toString (typeBits (typeofV v))

/-- `isObject(x) && Object.keys(x).length === 0`. -/
def isEmptyObjectAt (h : Heap) (v : JSVal) : Bool :=
  match v with
  | .ref a => !isArr h a && (objFields h a).isEmpty
  | _ => false

/-- `Array.isArray(x) && x.length === 0`. -/
def isEmptyArrayAt (h : Heap) (v : JSVal) : Bool :=
  match v with
  | .ref a => isArr h a && (arrElems h a).isEmpty
  | _ => false

/-- The `isEmpty` test inside `processStructure` (source lines 233-235). -/
def heapEmptyAt (h : Heap) (a : Nat) : Bool :=
  match heapGet h a with
  | .obj fs => fs.isEmpty
  | .arr es => es.isEmpty

/-- `objValue[key]`: property access on a plain object (an absent key
yields `undefined`, which cannot occur for keys taken from
`Object.keys`). -/
def getField (h : Heap) (a : Nat) (k : String) : JSVal :=
  ((objFields h a).lookup k).getD JSVal.vundef

/-- `getObjectSignature` (source lines 186-195). -/
def getObjectSignature (h : Heap) (a : Nat) (path : List String) : String :=
  let type := if isArr h a then "array" else "object"
  if type = "object" then
    let keys := jsJoin "," (sortStrings ((objFields h a).map Prod.fst))
    jsJoin "." path ++ ".\x7b" ++ keys ++ "\x7d"
  else
    jsJoin "." path ++ ".[" ++ toString (arrElems h a).length ++ "]"

/-- `getBit` (source lines 78-85): the memoized key→bit derivation over
the process-wide key map.  Returns the bit together with the (possibly
extended) key map. -/
def getBit (km : List (String × Int)) (key : String) : Int × List (String × Int) :=
  match km.lookup key with
  | some v => (v, km)
  | none => ((xxHash32 key : Int), km ++ [(key, (xxHash32 key : Int))])

/-! ## The recursive traversal (`processStructure`) -/

/-- The state mutated during one top-level traversal: the per-level
accumulators (`levelHashes`), the per-call cycle tracker (`objectMap`)
and the process-wide key map (threaded through because `getBit`
memoizes). -/
structure TravState where
  levels : List (Nat × Int)
  objectMap : List (Nat × String)
  keyMap : List (String × Int)
deriving DecidableEq, Repr

/-- `if (!levelHashes[level]) levelHashes[level] = BigInt(1) << BigInt(level)`
(source lines 205-207). -/
def lhInit (m : List (Nat × Int)) (level : Nat) : List (Nat × Int) :=
  if (m.lookup level).isSome then m else m ++ [(level, (2 : Int) ^ level)]

/-- `levelHashes[level] += x`.  Only ever used after `lhInit` at that
level. -/
def lhAdd (m : List (Nat × Int)) (level : Nat) (x : Int) : List (Nat × Int) :=
  m.map (fun p => if p.1 = level then (p.1, p.2 + x) else p)

/-- One iteration of the sorted-keys loop of `processStructure`
(source lines 244-254): the `next` continuation is the recursive call at
`level + 1`.  The accumulator carries the traversal state and the
ordinal `multiplier`. -/
def processKey (h : Heap) (next : JSVal → List String → TravState → Option TravState)
    (a : Nat) (level : Nat) (path : List String)
    (acc : TravState × Int) (key : String) : Option (TravState × Int) :=
  let st := acc.1
  let multiplier := acc.2
  let c := getField h a key
  let propType := getType h c
  let pr := getBit st.keyMap key
  let st := { st with keyMap := pr.2, levels := lhAdd st.levels level (pr.1 * multiplier) }
  let st := { st with levels := lhAdd st.levels level (typeBits propType * multiplier) }
  (next c (path ++ [key]) st).map (fun st' => (st', multiplier + 1))

/-- One iteration of the array-elements loop of `processStructure`
(source lines 262-272). -/
def processElem (h : Heap) (next : JSVal → List String → TravState → Option TravState)
    (level : Nat) (path : List String)
    (acc : TravState × Int) (p : Nat × JSVal) : Option (TravState × Int) :=
  let st := acc.1
  let multiplier := acc.2
  let i := p.1
  let c := p.2
  let itemType := getType h c
  let pr := getBit st.keyMap ("[" ++ toString i ++ "]")
  let st := { st with keyMap := pr.2, levels := lhAdd st.levels level (pr.1 * multiplier) }
  let st := { st with levels := lhAdd st.levels level (typeBits itemType * multiplier) }
  (next c (path ++ ["[" ++ toString i ++ "]"]) st).map (fun st' => (st', multiplier + 1))

/-- `processStructure` (source lines 204-276), made total by a fuel
parameter that bounds the recursion depth; `none` means the fuel ran
out (the development proves that `h.length + 1` fuel never does). -/
def processStructure (h : Heap) : Nat → JSVal → Nat → List String → TravState → Option TravState
  | 0, _, _, _, _ => none
  | fuel + 1, value, level, path, st0 =>
    let st1 := { st0 with levels := lhInit st0.levels level }
    let type := getType h value
    let st2 := { st1 with levels := lhAdd st1.levels level (typeBits type) }
    if type ≠ "object" ∧ type ≠ "array" then some st2
    else
      match value with
      | .ref a =>
        let objSig := getObjectSignature h a path
        match st2.objectMap.lookup a with
        | some circularPath =>
          let pr := getBit st2.keyMap ("circular:" ++ circularPath)
          some { st2 with keyMap := pr.2, levels := lhAdd st2.levels level pr.1 }
        | none =>
          let st3 := { st2 with objectMap := setAssoc st2.objectMap a objSig }
          let pr := getBit st3.keyMap ("type:" ++ type)
          let st4 := { st3 with keyMap := pr.2, levels := lhAdd st3.levels level pr.1 }
          if level = 0 ∧ heapEmptyAt h a then some st4
          else if type = "object" then
            let keys := sortStrings ((objFields h a).map Prod.fst)
            (keys.foldlM
              (processKey h (fun c p s => processStructure h fuel c (level + 1) p s) a level path)
              (st4, 1)).map Prod.fst
          else
            let elems := arrElems h a
            let pr2 := getBit st4.keyMap ("length:" ++ toString elems.length)
            let st5 := { st4 with keyMap := pr2.2, levels := lhAdd st4.levels level pr2.1 }
            (elems.enum.foldlM
              (processElem h (fun c p s => processStructure h fuel c (level + 1) p s) level path)
              (st5, 1)).map Prod.fst
      | _ => some st2

/-! ## Process-wide state and the public API -/

/-- `StructureIdConfig`: the optional `newIdOnCollision` flag; `none`
models an absent property (falsy, like `false`). -/
structure StructureIdConfig where
  newIdOnCollision : Option Bool
deriving DecidableEq, Repr

/-- The cached info bundle of `getStructureInfo`. -/
structure StructureInfo where
  id : String
  levels : Nat
  collisionCount : Int
deriving DecidableEq, Repr

/-- The process-wide mutable state: `GLOBAL_KEY_MAP`,
`STRUCTURE_HASH_COUNTER`, the three WeakMap identity caches (keyed by
heap address) and the global configuration. -/
structure GenomeState where
  keyMap : List (String × Int)
  counter : List (String × Int)
  idCache : List (Nat × String)
  sigCache : List (Nat × String)
  infoCache : List (Nat × StructureInfo)
  config : StructureIdConfig
deriving DecidableEq, Repr

/-- The state at module load: empty maps and caches,
`globalConfig = { newIdOnCollision: false }`. -/
def initialState : GenomeState := ⟨[], [], [], [], [], ⟨some false⟩⟩

/-- `` `L${level}:${hash}` ``. -/
def fmtLevelEntry (p : Nat × Int) : String :=
  "L" ++ toString p.1 ++ ":" ++ toString p.2

/-- The structure signature formed from the level hashes: entries at
levels `> 0`, sorted by level, formatted and joined with `-`
(source lines 280-285). -/
def structureSignatureOf (m : List (Nat × Int)) : String :=
  jsJoin "-"
    ((sortLevelEntries (m.filter (fun p => decide (0 < p.1)))).map fmtLevelEntry)

/-- The full identifier formed from all level hashes, sorted by level
(source lines 299-303). -/
def fullIdOf (m : List (Nat × Int)) : String :=
  jsJoin "-" ((sortLevelEntries m).map fmtLevelEntry)

/-- `generateStructureId` (source lines 145-314). `none` would mean fuel
exhaustion of the traversal; the development proves it never happens. -/
def generateStructureId (h : Heap) (obj : JSVal) (config : Option StructureIdConfig)
    (g : GenomeState) : Option (String × GenomeState) :=
  if isEmptyObjectAt h obj then some ("\x7b\x7d", g)
  else if isEmptyArrayAt h obj then some ("[]", g)
  else
    let effectiveConfig := config.getD g.config
    match obj with
    | .ref a =>
      let flag := effectiveConfig.newIdOnCollision.getD false
      if ¬flag ∧ (g.idCache.lookup a).isSome then
        some ((g.idCache.lookup a).getD "", g)
      else
        match processStructure h (h.length + 1) obj 0 [] ⟨[], [], g.keyMap⟩ with
        | none => none
        | some ts =>
          let structureSignature := structureSignatureOf ts.levels
          let g1 := { g with keyMap := ts.keyMap,
                             sigCache := setAssoc g.sigCache a structureSignature }
          let currentCount := (g1.counter.lookup structureSignature).getD 0
          let step :=
            if flag then
              (setAssoc ts.levels 0 currentCount,
               { g1 with counter := setAssoc g1.counter structureSignature (currentCount + 1) })
            else (ts.levels, g1)
          let finalId := fullIdOf step.1
          let g3 := if ¬flag then { step.2 with idCache := setAssoc step.2.idCache a finalId }
                    else step.2
          let g4 := if (g3.infoCache.lookup a).isSome then
                      { g3 with infoCache := eraseAssoc g3.infoCache a }
                    else g3
          some (finalId, g4)
    | _ =>
      let bits := toString (typeBits (typeofV obj))
      some ("L0:" ++ bits ++ "-L1:" ++ bits, g)

/-- `calculateIdLevels` (source lines 322-324). -/
def calculateIdLevels (id : String) : Nat := (jsSplitDash id).length

/-- `getStructureSignature` (source lines 340-355). -/
def getStructureSignature (h : Heap) (obj : JSVal) (g : GenomeState) :
    Option (String × GenomeState) :=
  match obj with
  | .ref a =>
    match g.sigCache.lookup a with
    | some s => some (s, g)
    | none =>
      match generateStructureId h obj (some ⟨some false⟩) g with
      | none => none
      | some (tempId, g1) =>
        let signature := jsJoin "-" ((jsSplitDash tempId).drop 1)
        some (signature, { g1 with sigCache := setAssoc g1.sigCache a signature })
  | _ => some ("type:" ++ typeofV obj, g)

/-- `registerStructure` (source lines 370-373). -/
def registerStructure (h : Heap) (obj : JSVal) (collisionCount : Int) (g : GenomeState) :
    Option GenomeState :=
  (getStructureSignature h obj g).map
    (fun p => { p.2 with counter := setAssoc p.2.counter p.1 collisionCount })

/-- `registerStructureSignatures` (source lines 424-428). -/
def registerStructureSignatures (sigs : List (String × Int)) (g : GenomeState) : GenomeState :=
  { g with counter := sigs.foldl (fun c p => setAssoc c p.1 p.2) g.counter }

/-- `getStructureInfo` (source lines 449-504). -/
def getStructureInfo (h : Heap) (obj : JSVal) (config : Option StructureIdConfig)
    (g : GenomeState) : Option (StructureInfo × GenomeState) :=
  let effectiveConfig := config.getD g.config
  match obj with
  | .ref a =>
    match g.infoCache.lookup a with
    | some info => some (info, g)
    | none =>
      let sigStep : Option (String × GenomeState) :=
        match g.sigCache.lookup a with
        | some s => some (s, g)
        | none =>
          (generateStructureId h obj (some ⟨some false⟩) g).map
            (fun p => (jsJoin "-" ((jsSplitDash p.1).drop 1), p.2))
      match sigStep with
      | none => none
      | some (structureSignature, g1) =>
        let collisionCount := (g1.counter.lookup structureSignature).getD 0
        let flag := effectiveConfig.newIdOnCollision.getD false
        let idStep : Option (String × GenomeState) :=
          if flag then
            some ("L0:" ++ toString collisionCount ++ "-" ++ structureSignature, g1)
          else
            match g1.idCache.lookup a with
            | some cached => some (cached, g1)
            | none => generateStructureId h obj (some ⟨some false⟩) g1
        match idStep with
        | none => none
        | some (id, g2) =>
          let result : StructureInfo := ⟨id, calculateIdLevels id, collisionCount⟩
          some (result, { g2 with infoCache := setAssoc g2.infoCache a result })
  | _ =>
    match generateStructureId h obj (some ⟨some false⟩) g with
    | none => none
    | some (id, g1) => some (⟨id, calculateIdLevels id, 0⟩, g1)

/-- `resetState` (source lines 515-529): clears all maps and caches; the
global configuration itself is not touched. -/
def resetState (g : GenomeState) : GenomeState := ⟨[], [], [], [], [], g.config⟩

/-- `StructureState`: the serializable snapshot (key strings mapped to
decimal strings, signatures mapped to counter numbers). -/
structure StructureState where
  keyMap : List (String × String)
  collisionCounters : List (String × Int)
deriving DecidableEq, Repr

/-- `exportStructureState` (source lines 553-568). -/
def exportStructureState (g : GenomeState) : StructureState :=
  ⟨g.keyMap.map (fun p => (p.1, toString p.2)), g.counter⟩

/-- The characters trimmed by the host's string-to-number conversions. -/
def jsWhitespace (c : Char) : Bool :=
  c = ' ' || c = '\t' || c = '\n' || c = '\r'

/-- Trim whitespace from both ends of a character list. -/
def trimChars (l : List Char) : List Char :=
  ((l.dropWhile jsWhitespace).reverse.dropWhile jsWhitespace).reverse

/-- Value of a nonempty all-digit character run, else `none`. -/
def digitsToNat? (l : List Char) : Option Nat :=
  if l.isEmpty then none
  else if l.all Char.isDigit then
    some (l.foldl (fun a c => a * 10 + (c.toNat - 48)) 0)
  else none

/-- Models the host `BigInt(valueStr)` conversion used by
`importStructureState` on trimmed decimal-form strings (optional sign,
decimal digits; the empty string converts to `0`).  Radix-prefixed
forms (`0x…` etc.) are not modelled — no claim depends on them.
`none` is where the host throws a `SyntaxError`. -/
def parseBigIntModel (s : String) : Option Int :=
  match trimChars s.toList with
  | [] => some 0
  | c :: rest =>
    if c = '-' then (digitsToNat? rest).map (fun n => -(n : Int))
    else if c = '+' then (digitsToNat? rest).map (fun n => (n : Int))
    else (digitsToNat? (c :: rest)).map (fun n => (n : Int))

/-- The `for (const [key, valueStr] of Object.entries(state.keyMap))`
loop of `importStructureState`: entries already committed are carried in
the accumulator, and a string the host cannot convert aborts the loop
with the partial map (`.error`), modelling the `BigInt(valueStr)`
exception. -/
def importKeyMapEntries :
    List (String × String) → List (String × Int) →
    Except (List (String × Int)) (List (String × Int))
  | [], acc => .ok acc
  | (key, valueStr) :: rest, acc =>
    match parseBigIntModel valueStr with
    | none => .error acc
    | some v => importKeyMapEntries rest (setAssoc acc key v)

/-- `importStructureState` (source lines 582-600): resets all state,
then repopulates the key map and the collision counters.  `.error`
carries the global state as left behind when the host `BigInt(valueStr)`
conversion throws mid-loop (the reset and earlier entries are already
committed).  The trailing maximum-bit computation of the source
(lines 593-599) binds a local that is never used and is omitted as it
has no observable effect. -/
def importStructureState (state : StructureState) (g : GenomeState) :
    Except GenomeState GenomeState :=
  let g0 := resetState g
  match importKeyMapEntries state.keyMap [] with
  | .error partialKm => .error { g0 with keyMap := partialKm }
  | .ok km =>
    let counters := state.collisionCounters.foldl (fun c p => setAssoc c p.1 p.2) []
    .ok { g0 with keyMap := km, counter := counters }

/-- `setStructureIdConfig` (source lines 111-113). -/
def setStructureIdConfig (config : StructureIdConfig) (g : GenomeState) : GenomeState :=
  { g with config := config }

/-- `getStructureIdConfig` (source lines 119-121). -/
def getStructureIdConfig (g : GenomeState) : StructureIdConfig := g.config

/-! ## Properties of the JS sort order -/

/-- Helper for inverting `Nat.toDigitsCore`: the value of the digits of
`n` appended below an accumulator. -/
def pushAcc (acc n : Nat) : Nat :=
  if n < 10 then acc * 10 + n else pushAcc acc (n / 10) * 10 + n % 10
termination_by n
decreasing_by exact Nat.div_lt_self (by omega) (by omega)

/-- The cycle tracker only ever grows during a traversal. -/
def omSub (m m' : List (Nat × String)) : Prop :=
  ∀ a s, m.lookup a = some s → m'.lookup a = some s

/-- The number of heap addresses not yet registered in the cycle
tracker: the termination measure of the traversal. -/
def unvisited (h : Heap) (om : List (Nat × String)) : Nat :=
  ((List.range h.length).filter (fun a => (om.lookup a).isNone)).length

/-- Two heap objects are equal up to property insertion order: records
have permuted field lists with no duplicate keys (JS objects cannot
repeat a key), with the same child value at each key; sequences are
equal outright. -/
def heapObjEquiv : HeapObj → HeapObj → Prop
  | .obj f₁, .obj f₂ => f₁.Perm f₂ ∧ (f₁.map Prod.fst).Nodup
  | .arr e₁, .arr e₂ => e₁ = e₂
  | _, _ => False

/-- Two heaps describing the same value graph in which every record's
properties may have been inserted in a different order. -/
def HeapEquiv (h₁ h₂ : Heap) : Prop := List.Forall₂ heapObjEquiv h₁ h₂

/-- The state with the three identity caches cleared and everything else
kept: exactly what an import of the current export leaves behind. -/
def clearCaches (g : GenomeState) : GenomeState :=
  { g with idCache := [], sigCache := [], infoCache := [] }

/-- A cached identifier agrees with what a fresh stable-mode computation
(under the current key map) returns.  This is an invariant of every
state reachable through the public API: entries are only ever written
with the just-computed identifier, and the key map is append-only with
values that never change. -/
def CacheConsistent (h : Heap) (g : GenomeState) : Prop :=
  ∀ a c, g.idCache.lookup a = some c →
    (generateStructureId h (.ref a) (some ⟨some false⟩) (clearCaches g)).map Prod.fst = some c

/-- A key map whose every entry is the hash-derived bit: the shape of
`GLOBAL_KEY_MAP` in any process that never imported foreign bits. -/
def CanonicalKm (km : List (String × Int)) : Prop :=
  ∀ k v, km.lookup k = some v → v = (xxHash32 k : Int)

/-- The relation between two traversal outcomes started from the same
levels and cycle tracker under two canonical key maps: they agree on
everything except possibly the key-map tails, which remain canonical. -/
def TsRel : Option TravState → Option TravState → Prop
  | some t₁, some t₂ =>
      t₁.levels = t₂.levels ∧ t₁.objectMap = t₂.objectMap ∧
      CanonicalKm t₁.keyMap ∧ CanonicalKm t₂.keyMap
  | none, none => True
  | _, _ => False

/-- `TsRel` lifted to the loop accumulators. -/
def AccRel : Option (TravState × Int) → Option (TravState × Int) → Prop
  | some a₁, some a₂ =>
      a₁.1.levels = a₂.1.levels ∧ a₁.1.objectMap = a₂.1.objectMap ∧
      CanonicalKm a₁.1.keyMap ∧ CanonicalKm a₂.1.keyMap ∧ a₁.2 = a₂.2
  | none, none => True
  | _, _ => False

/-- The level-hash map of a traversal holds exactly the levels
`0, 1, …, len-1`, in insertion order (`levelHashes` is only ever seeded
at the current depth and depths grow one by one). -/
def ContigLevels (m : List (Nat × Int)) : Prop :=
  m.map Prod.fst = List.range m.length

/-- The structural signature a traversal from a pristine key map assigns
to a value: the pure, state-independent part of the identifier. -/
def pureSigOf (h : Heap) (v : JSVal) : String :=
  match processStructure h (h.length + 1) v 0 [] ⟨[], [], []⟩ with
  | some ts => structureSignatureOf ts.levels
  | none => ""

/-- Repeated calls of `generateStructureId` on a list of values,
threading the process state from call to call. -/
def generateSeq (h : Heap) (cfg : Option StructureIdConfig) :
    List JSVal → GenomeState → Option (List String × GenomeState)
  | [], g => some ([], g)
  | v :: vs, g =>
    match generateStructureId h v cfg g with
    | none => none
    | some (i, g₁) =>
      match generateSeq h cfg vs g₁ with
      | none => none
      | some (ids, g₂) => some (i :: ids, g₂)

/-- A two-object heap with two structurally identical records
`\x7b a: <number> \x7d` at distinct addresses. -/
def wObjHeap : Heap := [HeapObj.obj [("a", JSVal.vnum)], HeapObj.obj [("a", JSVal.vnum)]]

theorem charListLe_total (l₁ l₂ : List Char) :
    charListLe l₁ l₂ = true ∨ charListLe l₂ l₁ = true := by
  induction l₁ generalizing l₂ with
  | nil => left; rfl
  | cons a as ih =>
    cases l₂ with
    | nil => right; rfl
    | cons b bs =>
      by_cases hab : a < b
      · left; simp [charListLe, hab]
      · by_cases hba : b < a
        · right; simp [charListLe, hba]
        · rcases ih bs with hle | hle
          · left; simp [charListLe, hab, hba, hle]
          · right; simp [charListLe, hab, hba, hle]

theorem charListLe_trans (l₁ l₂ l₃ : List Char)
    (h₁ : charListLe l₁ l₂ = true) (h₂ : charListLe l₂ l₃ = true) :
    charListLe l₁ l₃ = true := by
  induction l₁ generalizing l₂ l₃ with
  | nil => rfl
  | cons a as ih =>
    cases l₂ with
    | nil => simp [charListLe] at h₁
    | cons b bs =>
      cases l₃ with
      | nil => simp [charListLe] at h₂
      | cons c cs =>
        simp only [charListLe] at h₁ h₂ ⊢
        by_cases hab : a < b
        · by_cases hbc : b < c
          · simp [lt_trans hab hbc]
          · by_cases hcb : c < b
            · simp [hab, hbc, hcb] at h₂
            · have hbc' : b = c := le_antisymm (not_lt.mp hcb) (not_lt.mp hbc)
              simp [hbc' ▸ hab]
        · by_cases hba : b < a
          · simp [hab, hba] at h₁
          · have hab' : a = b := le_antisymm (not_lt.mp hba) (not_lt.mp hab)
            subst hab'
            simp only [hab, if_neg (lt_irrefl a), if_neg] at h₁ ⊢
            by_cases hac : a < c
            · simp [hac]
            · by_cases hca : c < a
              · simp [hac, hca] at h₂
              · simp only [hac, hca, if_neg, if_false] at h₂ ⊢
                exact ih bs cs h₁ h₂

theorem charListLe_antisymm (l₁ l₂ : List Char)
    (h₁ : charListLe l₁ l₂ = true) (h₂ : charListLe l₂ l₁ = true) : l₁ = l₂ := by
  induction l₁ generalizing l₂ with
  | nil =>
    cases l₂ with
    | nil => rfl
    | cons b bs => simp [charListLe] at h₂
  | cons a as ih =>
    cases l₂ with
    | nil => simp [charListLe] at h₁
    | cons b bs =>
      simp only [charListLe] at h₁ h₂
      by_cases hab : a < b
      · simp [hab, asymm hab] at h₂
      · by_cases hba : b < a
        · simp [hab, hba] at h₁
        · have hab' : a = b := le_antisymm (not_lt.mp hba) (not_lt.mp hab)
          subst hab'
          simp only [if_neg (lt_irrefl a)] at h₁ h₂
          exact congrArg _ (ih bs h₁ h₂)

instance : IsTotal String jsStrLe := ⟨fun a b => charListLe_total a.toList b.toList⟩

instance : IsTrans String jsStrLe :=
  ⟨fun a b c h₁ h₂ => charListLe_trans a.toList b.toList c.toList h₁ h₂⟩

theorem string_toList_inj {a b : String} (h : a.toList = b.toList) : a = b := by
  cases a; cases b
  simp only [String.toList] at h
  rw [h]

instance : IsAntisymm String jsStrLe :=
  ⟨fun a b h₁ h₂ => string_toList_inj (charListLe_antisymm a.toList b.toList h₁ h₂)⟩

theorem sortStrings_perm (l : List String) : (sortStrings l).Perm l :=
  List.perm_insertionSort jsStrLe l

theorem sortStrings_sorted (l : List String) : List.Sorted jsStrLe (sortStrings l) :=
  List.sorted_insertionSort jsStrLe l

/-- JS `sort()` canonicalizes: two permutations of the same key multiset
sort to the same list. -/
theorem sortStrings_congr {l₁ l₂ : List String} (hp : l₁.Perm l₂) :
    sortStrings l₁ = sortStrings l₂ :=
  List.eq_of_perm_of_sorted
    (((sortStrings_perm l₁).trans hp).trans (sortStrings_perm l₂).symm)
    (sortStrings_sorted l₁) (sortStrings_sorted l₂)

instance : IsTotal (Nat × Int) levelLe := ⟨fun p q => Nat.le_total p.1 q.1⟩

instance : IsTrans (Nat × Int) levelLe := ⟨fun _ _ _ h₁ h₂ => le_trans h₁ h₂⟩

theorem sortLevelEntries_perm (m : List (Nat × Int)) : (sortLevelEntries m).Perm m :=
  List.perm_insertionSort levelLe m

theorem sortLevelEntries_of_sorted {m : List (Nat × Int)}
    (h : List.Sorted levelLe m) : sortLevelEntries m = m :=
  List.Sorted.insertionSort_eq h

/-! ## Association-list lemmas -/

theorem lookup_cons' {α β : Type} [DecidableEq α] (p : α × β) (m : List (α × β)) (k : α) :
    (p :: m).lookup k = if k = p.1 then some p.2 else m.lookup k := by
  obtain ⟨k₁, v₁⟩ := p
  by_cases h : k = k₁
  · simp [List.lookup_cons, beq_iff_eq.mpr h, h]
  · simp [List.lookup_cons, beq_eq_false_iff_ne.mpr h, h]

theorem lookup_setAssoc_self {α β : Type} [DecidableEq α]
    (m : List (α × β)) (k : α) (v : β) : (setAssoc m k v).lookup k = some v := by
  induction m with
  | nil => simp [setAssoc, lookup_cons']
  | cons p m ih =>
    by_cases hp : p.1 = k
    · simp [setAssoc, hp, lookup_cons']
    · simp [setAssoc, hp, lookup_cons', Ne.symm hp, ih]

theorem lookup_setAssoc_ne {α β : Type} [DecidableEq α]
    (m : List (α × β)) (k k' : α) (v : β) (h : k' ≠ k) :
    (setAssoc m k v).lookup k' = m.lookup k' := by
  induction m with
  | nil => simp [setAssoc, lookup_cons', h]
  | cons p m ih =>
    by_cases hp : p.1 = k
    · simp [setAssoc, hp, lookup_cons', h]
    · by_cases hp' : k' = p.1
      · simp [setAssoc, hp, lookup_cons', hp']
      · simp [setAssoc, hp, lookup_cons', hp', ih]

theorem setAssoc_of_lookup_none {α β : Type} [DecidableEq α]
    (m : List (α × β)) (k : α) (v : β) (h : m.lookup k = none) :
    setAssoc m k v = m ++ [(k, v)] := by
  induction m with
  | nil => simp [setAssoc]
  | cons p m ih =>
    rw [lookup_cons'] at h
    by_cases hk : k = p.1
    · rw [if_pos hk] at h; exact absurd h (by simp)
    · rw [if_neg hk] at h
      have hpk : ¬p.1 = k := fun hh => hk hh.symm
      simp [setAssoc, hpk, ih h]

theorem setAssoc_keys_of_lookup_isSome {α β : Type} [DecidableEq α]
    (m : List (α × β)) (k : α) (v : β) (h : (m.lookup k).isSome) :
    (setAssoc m k v).map Prod.fst = m.map Prod.fst := by
  induction m with
  | nil => simp [List.lookup] at h
  | cons p m ih =>
    by_cases hp : p.1 = k
    · simp [setAssoc, hp]
    · rw [lookup_cons', if_neg (fun hh : k = p.1 => hp hh.symm)] at h
      simp [setAssoc, hp, ih h]

theorem lookup_isSome_iff_mem_keys {α β : Type} [DecidableEq α]
    (m : List (α × β)) (k : α) : (m.lookup k).isSome ↔ k ∈ m.map Prod.fst := by
  induction m with
  | nil => simp [List.lookup]
  | cons p m ih =>
    by_cases hp : k = p.1
    · simp [lookup_cons', hp]
    · simp [lookup_cons', hp, ih]

theorem foldl_setAssoc_append {α β : Type} [DecidableEq α]
    (l : List (α × β)) :
    ∀ acc : List (α × β), (∀ p ∈ l, acc.lookup p.1 = none) → (l.map Prod.fst).Nodup →
    l.foldl (fun c p => setAssoc c p.1 p.2) acc = acc ++ l := by
  induction l with
  | nil => intro acc _ _; simp
  | cons p l ih =>
    intro acc hdisj hnd
    simp only [List.map_cons, List.nodup_cons] at hnd
    have hstep : setAssoc acc p.1 p.2 = acc ++ [p] :=
      setAssoc_of_lookup_none acc p.1 p.2 (hdisj p (List.mem_cons_self p l))
    have hdisj' : ∀ q ∈ l, (acc ++ [p]).lookup q.1 = none := by
      intro q hq
      have hne : q.1 ≠ p.1 := fun hqp => hnd.1 (hqp ▸ List.mem_map_of_mem Prod.fst hq)
      simp [List.lookup_append, hdisj q (List.mem_cons_of_mem p hq), lookup_cons', hne]
    rw [List.foldl_cons, hstep, ih (acc ++ [p]) hdisj' hnd.2, List.append_assoc,
      List.singleton_append]

/-- Looking a key up in a permuted association list with no duplicate
keys gives the same answer. -/
theorem lookup_eq_of_perm {α β : Type} [DecidableEq α]
    {l₁ l₂ : List (α × β)} (hp : l₁.Perm l₂) (hnd : (l₁.map Prod.fst).Nodup)
    (k : α) : l₁.lookup k = l₂.lookup k := by
  revert hnd
  induction hp with
  | nil => intro _; rfl
  | cons x _ ih =>
    intro hnd
    simp only [List.map_cons, List.nodup_cons] at hnd
    simp [lookup_cons', ih hnd.2]
  | swap x y l =>
    intro hnd
    simp only [List.map_cons, List.nodup_cons, List.mem_cons] at hnd
    have hxy : y.1 ≠ x.1 := fun hh => hnd.1 (Or.inl hh)
    simp only [lookup_cons']
    have hxy' : x.1 ≠ y.1 := fun hh => hxy hh.symm
    by_cases hkx : k = x.1 <;> by_cases hky : k = y.1
    · exact absurd (hky.symm.trans hkx) hxy
    · simp [hkx, hky, hxy']
    · simp [hkx, hky, hxy]
    · simp [hkx, hky]
  | trans h12 _ ih1 ih2 =>
    intro hnd
    exact (ih1 hnd).trans (ih2 (((h12.map Prod.fst).nodup_iff).mp hnd))

/-! ## Decimal printing and the host BigInt conversion -/

theorem toList_asString (l : List Char) : (List.asString l).toList = l := rfl

theorem toList_append (s t : String) : (s ++ t).toList = s.toList ++ t.toList :=
  String.data_append s t

theorem natRepr_toList (n : Nat) : (Nat.repr n).toList = Nat.toDigits 10 n := rfl

theorem pushAcc_zero (n : Nat) : pushAcc 0 n = n := by
  induction n using Nat.strong_induction_on with
  | _ n ih =>
    rw [pushAcc]
    split
    · omega
    · rw [ih (n / 10) (Nat.div_lt_self (by omega) (by omega))]
      omega

theorem digitChar_toNat {d : Nat} (h : d < 10) : (Nat.digitChar d).toNat - 48 = d := by
  interval_cases d <;> rfl

theorem digitChar_isDigit {d : Nat} (h : d < 10) : (Nat.digitChar d).isDigit = true := by
  interval_cases d <;> rfl

theorem toDigitsCore_foldl :
    ∀ (fuel n : Nat) (ds : List Char) (acc : Nat), n < fuel →
    (Nat.toDigitsCore 10 fuel n ds).foldl (fun a c => a * 10 + (c.toNat - 48)) acc
      = ds.foldl (fun a c => a * 10 + (c.toNat - 48)) (pushAcc acc n) := by
  intro fuel
  induction fuel with
  | zero => intro n ds acc h; omega
  | succ fuel ih =>
    intro n ds acc h
    rw [Nat.toDigitsCore]
    by_cases h10 : n / 10 = 0
    · have hn : n < 10 := by omega
      rw [if_pos h10, List.foldl_cons, digitChar_toNat (Nat.mod_lt n (by omega)),
        pushAcc, if_pos hn, Nat.mod_eq_of_lt hn]
    · have hn : ¬n < 10 := by omega
      rw [if_neg h10, ih (n / 10) _ acc (by omega), List.foldl_cons,
        digitChar_toNat (Nat.mod_lt n (by omega))]
      conv_rhs => rw [pushAcc]
      rw [if_neg hn]

theorem toDigitsCore_digits :
    ∀ (fuel n : Nat) (ds : List Char), n < fuel → (∀ c ∈ ds, c.isDigit = true) →
    ∀ c ∈ Nat.toDigitsCore 10 fuel n ds, c.isDigit = true := by
  intro fuel
  induction fuel with
  | zero => intro n ds h; omega
  | succ fuel ih =>
    intro n ds h hds
    rw [Nat.toDigitsCore]
    by_cases h10 : n / 10 = 0
    · rw [if_pos h10]
      intro c hc
      rcases List.mem_cons.mp hc with hc | hc
      · exact hc ▸ digitChar_isDigit (Nat.mod_lt n (by omega))
      · exact hds c hc
    · rw [if_neg h10]
      refine ih (n / 10) _ (by omega) ?_
      intro c hc
      rcases List.mem_cons.mp hc with hc | hc
      · exact hc ▸ digitChar_isDigit (Nat.mod_lt n (by omega))
      · exact hds c hc

theorem toDigitsCore_ne_nil :
    ∀ (fuel n : Nat) (ds : List Char), n < fuel → Nat.toDigitsCore 10 fuel n ds ≠ [] := by
  intro fuel
  induction fuel with
  | zero => intro n ds h; omega
  | succ fuel ih =>
    intro n ds h
    rw [Nat.toDigitsCore]
    by_cases h10 : n / 10 = 0
    · rw [if_pos h10]; exact List.cons_ne_nil _ _
    · rw [if_neg h10]; exact ih (n / 10) _ (by omega)

theorem toDigits_digits (n : Nat) : ∀ c ∈ Nat.toDigits 10 n, c.isDigit = true :=
  toDigitsCore_digits (n + 1) n [] (Nat.lt_succ_self n) (by intro c hc; cases hc)

theorem toDigits_ne_nil (n : Nat) : Nat.toDigits 10 n ≠ [] :=
  toDigitsCore_ne_nil (n + 1) n [] (Nat.lt_succ_self n)

theorem digitsToNat?_toDigits (n : Nat) : digitsToNat? (Nat.toDigits 10 n) = some n := by
  unfold digitsToNat?
  rw [if_neg (by simp [List.isEmpty_iff, toDigits_ne_nil n]),
    if_pos (List.all_eq_true.mpr (toDigits_digits n)),
    show Nat.toDigits 10 n = Nat.toDigitsCore 10 (n + 1) n [] from rfl,
    toDigitsCore_foldl (n + 1) n [] 0 (Nat.lt_succ_self n), List.foldl_nil, pushAcc_zero]

theorem isDigit_not_ws {c : Char} (h : c.isDigit = true) : jsWhitespace c = false := by
  by_contra hw
  have hw' : jsWhitespace c = true := by
    cases hh : jsWhitespace c
    · exact absurd hh hw
    · rfl
  simp only [jsWhitespace, Bool.or_eq_true, decide_eq_true_eq] at hw'
  rcases hw' with ((hh | hh) | hh) | hh <;> (subst hh; exact absurd h (by decide))

theorem isDigit_ne_dash {c : Char} (h : c.isDigit = true) : c ≠ '-' := by
  intro hh; subst hh; exact absurd h (by decide)

theorem isDigit_ne_plus {c : Char} (h : c.isDigit = true) : c ≠ '+' := by
  intro hh; subst hh; exact absurd h (by decide)

theorem dropWhile_eq_self_of_all {α : Type} {p : α → Bool} {l : List α}
    (h : ∀ c ∈ l, p c = false) : l.dropWhile p = l := by
  cases l with
  | nil => rfl
  | cons x xs => rw [List.dropWhile_cons, if_neg (by simp [h x (by simp)])]

theorem trimChars_eq_self {l : List Char} (h : ∀ c ∈ l, jsWhitespace c = false) :
    trimChars l = l := by
  unfold trimChars
  rw [dropWhile_eq_self_of_all h,
    dropWhile_eq_self_of_all (fun c hc => h c (List.mem_reverse.mp hc)), List.reverse_reverse]

theorem parseBigIntModel_natRepr (n : Nat) : parseBigIntModel (Nat.repr n) = some (n : Int) := by
  unfold parseBigIntModel
  rw [natRepr_toList,
    trimChars_eq_self (fun c hc => isDigit_not_ws (toDigits_digits n c hc))]
  obtain ⟨c, rest, hcr⟩ := List.exists_cons_of_ne_nil (toDigits_ne_nil n)
  have hcd : c.isDigit = true := toDigits_digits n c (by rw [hcr]; exact List.mem_cons_self c rest)
  rw [hcr]
  dsimp only
  rw [if_neg (isDigit_ne_dash hcd), if_neg (isDigit_ne_plus hcd), ← hcr,
    digitsToNat?_toDigits n]
  rfl

theorem parseBigIntModel_toString (i : Int) : parseBigIntModel (toString i) = some i := by
  cases i with
  | ofNat n => exact parseBigIntModel_natRepr n
  | negSucc m =>
    have htl : (toString (Int.negSucc m)).toList = '-' :: Nat.toDigits 10 (m + 1) := by
      show (("-" : String) ++ Nat.repr (m + 1)).toList = _
      rw [toList_append, natRepr_toList]
      rfl
    unfold parseBigIntModel
    rw [htl, trimChars_eq_self ?hws]
    case hws =>
      intro c hc
      rcases List.mem_cons.mp hc with hc | hc
      · subst hc; rfl
      · exact isDigit_not_ws (toDigits_digits (m + 1) c hc)
    dsimp only
    rw [if_pos rfl,
      show digitsToNat? (Nat.toDigits 10 (m + 1)) = some (m + 1) from digitsToNat?_toDigits (m + 1)]
    rfl

theorem toString_int_inj {x y : Int} (h : toString x = toString y) : x = y := by
  have hp := congrArg parseBigIntModel h
  rw [parseBigIntModel_toString, parseBigIntModel_toString, Option.some_inj] at hp
  exact hp

theorem takeWhile_append_stop {A B : List Char}
    (hA : ∀ c ∈ A, c.isDigit = true) :
    (A ++ '-' :: B).takeWhile (fun c => !(c = '-' : Bool)) = A := by
  induction A with
  | nil => simp [List.takeWhile_cons]
  | cons x xs ih =>
    have hx := hA x (by simp)
    rw [List.cons_append, List.takeWhile_cons,
      if_pos (by simp [isDigit_ne_dash hx]), ih (fun c hc => hA c (by simp [hc]))]

/-- Identifiers that differ only in the decimal value of the depth-0
segment are equal only when those values are equal. -/
theorem l0_prefix_inj (s : String) (i j : Nat)
    (h : "L0:" ++ toString (i : Int) ++ "-" ++ s = "L0:" ++ toString (j : Int) ++ "-" ++ s) :
    i = j := by
  have htl := congrArg String.toList h
  simp only [toList_append, List.append_assoc] at htl
  have hcut := List.append_cancel_left htl
  have hdig : ∀ n : Nat, (toString (n : Int)).toList = Nat.toDigits 10 n := fun _ => rfl
  rw [hdig, hdig, show ("-" : String).toList = ['-'] from rfl, List.singleton_append] at hcut
  have htk := congrArg (List.takeWhile (fun c => !(c = '-' : Bool))) hcut
  rw [takeWhile_append_stop (toDigits_digits i), takeWhile_append_stop (toDigits_digits j)] at htk
  exact Int.ofNat.inj (toString_int_inj (string_toList_inj htk))

/-! ## Monotonicity of the cycle tracker and termination of the traversal -/

theorem omSub_refl (m : List (Nat × String)) : omSub m m := fun _ _ hs => hs

theorem omSub_trans {m₁ m₂ m₃ : List (Nat × String)}
    (h₁ : omSub m₁ m₂) (h₂ : omSub m₂ m₃) : omSub m₁ m₃ :=
  fun a s hs => h₂ a s (h₁ a s hs)

theorem omSub_setAssoc (m : List (Nat × String)) (k : Nat) (v : String)
    (hk : m.lookup k = none) : omSub m (setAssoc m k v) := by
  intro a s hs
  rw [setAssoc_of_lookup_none m k v hk, List.lookup_append, hs]
  rfl

theorem foldlM_omSub {α : Type} {f : (TravState × Int) → α → Option (TravState × Int)}
    (hf : ∀ acc x r, f acc x = some r → omSub acc.1.objectMap r.1.objectMap) :
    ∀ (l : List α) (acc r), l.foldlM f acc = some r → omSub acc.1.objectMap r.1.objectMap := by
  intro l
  induction l with
  | nil =>
    intro acc r hr
    rw [List.foldlM_nil] at hr
    cases hr
    exact omSub_refl _
  | cons x xs ih =>
    intro acc r hr
    rw [List.foldlM_cons] at hr
    rcases Option.bind_eq_some.mp hr with ⟨mid, hmid, hrest⟩
    exact omSub_trans (hf acc x mid hmid) (ih mid r hrest)

theorem optIsSome_map {α β : Type} (f : α → β) (x : Option α) :
    (x.map f).isSome = x.isSome := by
  cases x <;> rfl

theorem processKey_omSub {h : Heap} {next : JSVal → List String → TravState → Option TravState}
    {a level path}
    (hnext : ∀ c p s r, next c p s = some r → omSub s.objectMap r.objectMap) :
    ∀ acc k r, processKey h next a level path acc k = some r →
      omSub acc.1.objectMap r.1.objectMap := by
  intro acc k r hpk
  unfold processKey at hpk
  rcases Option.map_eq_some'.mp hpk with ⟨st', hnx, hr⟩
  subst hr
  have hmn := hnext _ _ _ _ hnx
  exact hmn

theorem processElem_omSub {h : Heap} {next : JSVal → List String → TravState → Option TravState}
    {level path}
    (hnext : ∀ c p s r, next c p s = some r → omSub s.objectMap r.objectMap) :
    ∀ acc q r, processElem h next level path acc q = some r →
      omSub acc.1.objectMap r.1.objectMap := by
  intro acc q r hpe
  unfold processElem at hpe
  rcases Option.map_eq_some'.mp hpe with ⟨st', hnx, hr⟩
  subst hr
  have hmn := hnext _ _ _ _ hnx
  exact hmn

theorem processStructure_omSub (h : Heap) :
    ∀ fuel v level path st st', processStructure h fuel v level path st = some st' →
      omSub st.objectMap st'.objectMap := by
  intro fuel
  induction fuel with
  | zero =>
    intro v level path st st' hps
    exact absurd hps (by simp [processStructure])
  | succ fuel ih =>
    intro v level path st st' hps
    simp only [processStructure] at hps
    split at hps
    · cases hps; exact omSub_refl _
    · cases v with
      | ref a =>
        dsimp only at hps
        rcases hom : st.objectMap.lookup a with _ | circ <;> rw [hom] at hps <;>
          dsimp only at hps
        · -- new object: registered, then possibly the child loops
          split at hps
          · cases hps
            exact omSub_setAssoc _ _ _ hom
          · split at hps
            · rcases Option.map_eq_some'.mp hps with ⟨pr, hfold, hpr⟩
              subst hpr
              refine omSub_trans (omSub_setAssoc _ _ _ hom)
                (foldlM_omSub (processKey_omSub ?_) _ _ _ hfold)
              intro c p s r hr
              exact ih c (level + 1) p s r hr
            · rcases Option.map_eq_some'.mp hps with ⟨pr, hfold, hpr⟩
              subst hpr
              refine omSub_trans (omSub_setAssoc _ _ _ hom)
                (foldlM_omSub (processElem_omSub ?_) _ _ _ hfold)
              intro c p s r hr
              exact ih c (level + 1) p s r hr
        · -- cycle hit: tracker unchanged
          cases hps
          exact omSub_refl _
      | vnum => cases hps; exact omSub_refl _
      | vstr => cases hps; exact omSub_refl _
      | vbool => cases hps; exact omSub_refl _
      | vbig => cases hps; exact omSub_refl _
      | vundef => cases hps; exact omSub_refl _
      | vsym => cases hps; exact omSub_refl _
      | vfunc => cases hps; exact omSub_refl _
      | vnull => cases hps; exact omSub_refl _

theorem unvisited_le_of_omSub (h : Heap) {om om' : List (Nat × String)}
    (hsub : omSub om om') : unvisited h om' ≤ unvisited h om := by
  refine List.Sublist.length_le (List.monotone_filter_right _ ?_)
  intro a ha
  rcases hoa : om.lookup a with _ | s
  · simp
  · rw [hsub a s hoa] at ha
    simp at ha

theorem unvisited_setAssoc_lt (h : Heap) (om : List (Nat × String)) (a : Nat) (s : String)
    (ha : a < h.length) (hnone : om.lookup a = none) :
    unvisited h (setAssoc om a s) < unvisited h om := by
  unfold unvisited
  have hfeq : (List.range h.length).filter (fun x => ((setAssoc om a s).lookup x).isNone)
      = ((List.range h.length).filter (fun x => (om.lookup x).isNone)).filter
          (fun x => decide (x ≠ a)) := by
    rw [List.filter_filter]
    refine List.filter_congr ?_
    intro x _
    by_cases hx : x = a
    · subst hx
      simp [lookup_setAssoc_self]
    · simp [lookup_setAssoc_ne om a x s hx, hx]
  rw [hfeq]
  refine List.length_filter_lt_length_iff_exists.mpr ⟨a, ?_, by simp⟩
  rw [List.mem_filter]
  exact ⟨List.mem_range.mpr ha, by simp [hnone]⟩

theorem objFields_ne_nil_lt (h : Heap) (a : Nat) (hne : objFields h a ≠ []) : a < h.length := by
  by_contra hge
  have hd : heapGet h a = .obj [] := List.getD_eq_default h _ (by omega)
  exact hne (by simp [objFields, hd])

theorem arrElems_ne_nil_lt (h : Heap) (a : Nat) (hne : arrElems h a ≠ []) : a < h.length := by
  by_contra hge
  have hd : heapGet h a = .obj [] := List.getD_eq_default h _ (by omega)
  exact hne (by simp [arrElems, hd])

theorem foldlM_total {α : Type} {f : (TravState × Int) → α → Option (TravState × Int)}
    (h : Heap) (fuel : Nat)
    (hmono : ∀ acc x r, f acc x = some r → omSub acc.1.objectMap r.1.objectMap)
    (htot : ∀ acc x, unvisited h acc.1.objectMap < fuel → (f acc x).isSome) :
    ∀ (l : List α) acc, unvisited h acc.1.objectMap < fuel → (l.foldlM f acc).isSome := by
  intro l
  induction l with
  | nil => intro acc _; rw [List.foldlM_nil]; rfl
  | cons x xs ih =>
    intro acc hb
    rw [List.foldlM_cons]
    rcases hsx : f acc x with _ | mid
    · have hcontra := htot acc x hb
      rw [hsx] at hcontra
      exact absurd hcontra (by simp)
    · have hmid : unvisited h mid.1.objectMap < fuel :=
        lt_of_le_of_lt (unvisited_le_of_omSub h (hmono acc x mid hsx)) hb
      show (xs.foldlM f mid).isSome = true
      exact ih mid hmid

theorem processKey_total {h : Heap} {next : JSVal → List String → TravState → Option TravState}
    {a level path} (fuel : Nat)
    (hnext : ∀ c p s, unvisited h s.objectMap < fuel → (next c p s).isSome) :
    ∀ acc k, unvisited h acc.1.objectMap < fuel → (processKey h next a level path acc k).isSome := by
  intro acc k hb
  unfold processKey
  rw [optIsSome_map]
  exact hnext _ _ _ hb

theorem processElem_total {h : Heap} {next : JSVal → List String → TravState → Option TravState}
    {level path} (fuel : Nat)
    (hnext : ∀ c p s, unvisited h s.objectMap < fuel → (next c p s).isSome) :
    ∀ acc q, unvisited h acc.1.objectMap < fuel → (processElem h next level path acc q).isSome := by
  intro acc q hb
  unfold processElem
  rw [optIsSome_map]
  exact hnext _ _ _ hb

theorem processStructure_total (h : Heap) :
    ∀ fuel v level path st, unvisited h st.objectMap < fuel →
      (processStructure h fuel v level path st).isSome := by
  intro fuel
  induction fuel with
  | zero => intro v level path st hb; omega
  | succ fuel ih =>
    intro v level path st hb
    simp only [processStructure]
    split
    · rfl
    · cases v with
      | ref a =>
        dsimp only
        rcases hom : st.objectMap.lookup a with _ | circ <;> dsimp only
        · split
          · rfl
          · split
            · -- sorted-keys loop
              rcases hkeys : sortStrings ((objFields h a).map Prod.fst) with _ | ⟨k0, krest⟩
              · rw [List.foldlM_nil]; rfl
              · rw [optIsSome_map]
                have hfne : objFields h a ≠ [] := by
                  intro hnil
                  rw [show (objFields h a).map Prod.fst = [] from by rw [hnil]; rfl] at hkeys
                  have hlen := (sortStrings_perm ([] : List String)).length_eq
                  rw [hkeys] at hlen
                  simp at hlen
                have halt : a < h.length := objFields_ne_nil_lt h a hfne
                have hbd : unvisited h (setAssoc st.objectMap a
                    (getObjectSignature h a path)) < fuel :=
                  lt_of_lt_of_le (unvisited_setAssoc_lt h st.objectMap a _ halt hom)
                    (by omega)
                exact foldlM_total h fuel
                  (processKey_omSub (fun c p s r hr => processStructure_omSub h fuel c
                    (level + 1) p s r hr))
                  (processKey_total fuel (fun c p s hbs => ih c (level + 1) p s hbs))
                  _ _ hbd
            · -- array-elements loop
              rcases helems : arrElems h a with _ | ⟨e0, erest⟩
              · rw [show (List.nil (α := JSVal)).enum = [] from rfl, List.foldlM_nil]
                rfl
              · rw [optIsSome_map]
                have halt : a < h.length := arrElems_ne_nil_lt h a (by rw [helems]; simp)
                have hbd : unvisited h (setAssoc st.objectMap a
                    (getObjectSignature h a path)) < fuel :=
                  lt_of_lt_of_le (unvisited_setAssoc_lt h st.objectMap a _ halt hom)
                    (by omega)
                exact foldlM_total h fuel
                  (processElem_omSub (fun c p s r hr => processStructure_omSub h fuel c
                    (level + 1) p s r hr))
                  (processElem_total fuel (fun c p s hbs => ih c (level + 1) p s hbs))
                  _ _ hbd
        · rfl
      | vnum => rfl
      | vstr => rfl
      | vbool => rfl
      | vbig => rfl
      | vundef => rfl
      | vsym => rfl
      | vfunc => rfl
      | vnull => rfl


/-! ## Totality of the public entry point -/

theorem unvisited_le_len (h : Heap) (om : List (Nat × String)) :
    unvisited h om ≤ h.length := by
  have hle := List.length_filter_le (fun a => (om.lookup a).isNone) (List.range h.length)
  simpa using hle

theorem generateStructureId_isSome (h : Heap) (v : JSVal) (cfg : Option StructureIdConfig)
    (g : GenomeState) : (generateStructureId h v cfg g).isSome := by
  unfold generateStructureId
  split
  · rfl
  · split
    · rfl
    · cases v with
      | ref a =>
        dsimp only
        split
        · rfl
        · rcases hts : processStructure h (h.length + 1) (.ref a) 0 [] ⟨[], [], g.keyMap⟩
            with _ | ts
          · have htot := processStructure_total h (h.length + 1) (.ref a) 0 [] ⟨[], [], g.keyMap⟩
              (Nat.lt_succ_of_le (unvisited_le_len h []))
            rw [hts] at htot
            exact absurd htot (by simp)
          · rfl
      | vnum => rfl
      | vstr => rfl
      | vbool => rfl
      | vbig => rfl
      | vundef => rfl
      | vsym => rfl
      | vfunc => rfl
      | vnull => rfl

theorem generateStructureId_scalar (h : Heap) (v : JSVal) (cfg : Option StructureIdConfig)
    (g : GenomeState) (hv : isRefV v = false) :
    generateStructureId h v cfg g = some (scalarIdOf v, g) := by
  cases v
  case ref a => exact absurd hv (by simp [isRefV])
  all_goals rfl

/-! ## Claim theorems: C4, C6, C8, C10 -/

/-- C4 (counterexample): the claim says a bare `null` root yields
`L0:16-L1:16` (the null discriminant); the code computes
`TYPE_BITS[typeof obj]` and `typeof null` is `"object"`, so the result is
`L0:128-L1:128`. -/
theorem c4_counterexample :
    (generateStructureId [] .vnull none initialState).map Prod.fst = some "L0:128-L1:128" ∧
    (generateStructureId [] .vnull none initialState).map Prod.fst ≠ some "L0:16-L1:16" :=
  ⟨rfl, by decide⟩

/-- C4 (amended): for every root value that is not a record or sequence —
every bare scalar, including null and undefined — `generateStructureId`
returns exactly the two-segment string `L0:<b>-L1:<b>` with both segments
identical, where `<b>` is `TYPE_BITS[typeof value]` (0 if the `typeof`
category is unrecognized): 1 for numbers, 32 for undefined, 64 for
symbols, 0 for functions, and — because `typeof null` is `"object"` —
128 (the object discriminant) for null, not the null discriminant 16. -/
theorem c4_scalar_root_id (h : Heap) (v : JSVal) (cfg : Option StructureIdConfig)
    (g : GenomeState) (hv : isRefV v = false) :
    generateStructureId h v cfg g =
      some ("L0:" ++ toString (typeBits (typeofV v)) ++ "-L1:" ++ toString (typeBits (typeofV v)),
        g) :=
  generateStructureId_scalar h v cfg g hv

theorem c4_witness :
    isRefV .vnum = false ∧
    generateStructureId [] .vnum none initialState = some ("L0:1-L1:1", initialState) :=
  ⟨rfl, c4_scalar_root_id [] .vnum none initialState rfl⟩

/-- C6: on every heap — including every self-referencing (cyclic) record
or sequence graph — `generateStructureId` terminates with a result: the
fuel bound `h.length + 1` of the embedded traversal never runs out,
because the per-call cycle tracker registers every visited object and
stops on re-visits. -/
theorem c6_cycle_termination (h : Heap) (v : JSVal) (cfg : Option StructureIdConfig)
    (g : GenomeState) : (generateStructureId h v cfg g).isSome :=
  generateStructureId_isSome h v cfg g

/-- C8 (counterexample): the claim says symbols contribute the
zero-fallback constant; but `TYPE_BITS` maps `"symbol"` to 64, so a bare
symbol yields `L0:64-L1:64`, not `L0:0-L1:0`. -/
theorem c8_counterexample :
    typeBits "symbol" = 64 ∧
    (generateStructureId [] .vsym none initialState).map Prod.fst = some "L0:64-L1:64" ∧
    (generateStructureId [] .vsym none initialState).map Prod.fst ≠ some "L0:0-L1:0" :=
  ⟨rfl, rfl, by decide⟩

/-- C8 (amended): unsupported value categories never make
`generateStructureId` throw: functions (an unrecognized `typeof`
category) contribute the zero-fallback discriminant 0, while symbols
have their own `TYPE_BITS` entry and contribute 64, not 0. -/
theorem c8_unsupported_categories :
    (∀ (h : Heap) (cfg : Option StructureIdConfig) (g : GenomeState),
      generateStructureId h .vfunc cfg g = some ("L0:0-L1:0", g) ∧
      generateStructureId h .vsym cfg g = some ("L0:64-L1:64", g)) ∧
    typeBits "function" = 0 ∧ typeBits "symbol" = 64 :=
  ⟨fun h cfg g =>
    ⟨generateStructureId_scalar h .vfunc cfg g rfl, generateStructureId_scalar h .vsym cfg g rfl⟩,
   rfl, rfl⟩

/-- C10: `getStructureSignature null` takes the non-reference branch and
returns `"type:" + typeof null`, i.e. the literal `"type:object"` — null
never reaches traversal and never yields a computed structural signature
or the null discriminant. -/
theorem c10_null_signature (h : Heap) (g : GenomeState) :
    getStructureSignature h .vnull g = some ("type:object", g) := rfl


/-! ## Configuration handling and counter frame of the entry point -/

/-- `generateStructureId` consults the effective configuration only
through the truthiness of its `newIdOnCollision` field. -/
theorem generateStructureId_flag_congr (h : Heap) (v : JSVal) (g : GenomeState)
    (c₁ c₂ : Option StructureIdConfig)
    (hflag : (c₁.getD g.config).newIdOnCollision.getD false
           = (c₂.getD g.config).newIdOnCollision.getD false) :
    generateStructureId h v c₁ g = generateStructureId h v c₂ g := by
  simp only [generateStructureId]
  rw [hflag]

/-- With the collision flag off, `generateStructureId` never touches the
collision counter. -/
theorem generateStructureId_counter_frame (h : Heap) (v : JSVal)
    (cfg : Option StructureIdConfig) (g : GenomeState)
    (hflag : (cfg.getD g.config).newIdOnCollision.getD false = false) :
    ∀ r g', generateStructureId h v cfg g = some (r, g') → g'.counter = g.counter := by
  intro r g' hgen
  simp only [generateStructureId, hflag] at hgen
  split at hgen
  · cases hgen; rfl
  · split at hgen
    · cases hgen; rfl
    · cases v with
      | ref a =>
        dsimp only at hgen
        split at hgen
        · cases hgen; rfl
        · rcases hts : processStructure h (h.length + 1) (.ref a) 0 [] ⟨[], [], g.keyMap⟩
            with _ | ts <;> rw [hts] at hgen <;> dsimp only at hgen
          · cases hgen
          · simp only [Bool.false_eq_true, if_false, not_false_eq_true, if_true] at hgen
            split at hgen <;> (cases hgen; rfl)
      | vnum => cases hgen; rfl
      | vstr => cases hgen; rfl
      | vbool => cases hgen; rfl
      | vbig => cases hgen; rfl
      | vundef => cases hgen; rfl
      | vsym => cases hgen; rfl
      | vfunc => cases hgen; rfl
      | vnull => cases hgen; rfl

/-! ## Claim C9: a per-call config replaces the global one wholesale -/

/-- C9: a per-call config object replaces the global configuration
rather than merging with it: even when the global config has
`newIdOnCollision` set to true, an explicit empty config `\x7b\x7d`
(modelled as a `StructureIdConfig` with the field absent) makes the call
behave exactly as an explicit stable-mode call — the same result,
identity-cache behavior included — and it leaves the collision counter
untouched. -/
theorem c9_empty_config_is_stable (h : Heap) (v : JSVal) (g : GenomeState)
    (_hglobal : g.config = ⟨some true⟩) :
    generateStructureId h v (some ⟨none⟩) g = generateStructureId h v (some ⟨some false⟩) g ∧
    ∀ r g', generateStructureId h v (some ⟨none⟩) g = some (r, g') → g'.counter = g.counter :=
  ⟨generateStructureId_flag_congr h v g (some ⟨none⟩) (some ⟨some false⟩) rfl,
   generateStructureId_counter_frame h v (some ⟨none⟩) g rfl⟩

theorem c9_witness :
    ({ initialState with config := ⟨some true⟩ } : GenomeState).config = ⟨some true⟩ ∧
    generateStructureId [.obj [("a", .vnum)]] (.ref 0) (some ⟨none⟩)
        { initialState with config := ⟨some true⟩ }
      = generateStructureId [.obj [("a", .vnum)]] (.ref 0) (some ⟨some false⟩)
        { initialState with config := ⟨some true⟩ } :=
  ⟨rfl,
   (c9_empty_config_is_stable [.obj [("a", .vnum)]] (.ref 0)
     { initialState with config := ⟨some true⟩ } rfl).1⟩

/-! ## Claim C5: import performs no validation and is not atomic -/

theorem importKeyMapEntries_ok_exists :
    ∀ (l : List (String × String)) (acc : List (String × Int)),
    (∀ p ∈ l, (parseBigIntModel p.2).isSome) → ∃ km, importKeyMapEntries l acc = .ok km := by
  intro l
  induction l with
  | nil => intro acc _; exact ⟨acc, rfl⟩
  | cons p rest ih =>
    intro acc hp
    have hhead := hp p (List.mem_cons_self p rest)
    rcases hv : parseBigIntModel p.2 with _ | v
    · rw [hv] at hhead; exact absurd hhead (by simp)
    · obtain ⟨km, hkm⟩ := ih (setAssoc acc p.1 v) (fun q hq => hp q (List.mem_cons_of_mem p hq))
      refine ⟨km, ?_⟩
      obtain ⟨key, valueStr⟩ := p
      unfold importKeyMapEntries
      rw [hv]
      exact hkm

/-- C5 (counterexample): a snapshot with a negative collision counter is
imported without any error and the negative value is committed (the
claim demands a `MalformedStateError` and an unchanged state); and a
snapshot with a non-numeric key-map string makes the import abort with
the reset already performed and the earlier entry already committed (no
atomic replace-or-reject). -/
theorem c5_counterexample :
    importStructureState ⟨[], [("sig", -1)]⟩ initialState
      = .ok { initialState with counter := [("sig", -1)] } ∧
    importStructureState ⟨[("a", "12"), ("b", "xyz")], []⟩ initialState
      = .error { initialState with keyMap := [("a", 12)] } ∧
    ([("sig", -1)] : List (String × Int)) ≠ initialState.counter :=
  ⟨rfl, rfl, by decide⟩

/-- C5 (amended): `importStructureState` validates nothing.  Any
snapshot whose key-map value strings parse as integers is imported
wholesale and successfully: the collision counters are committed
verbatim — negative values included — the caches are cleared, and the
configuration is kept; no error of any kind is raised.  (When a key-map
string does not parse, the host `BigInt` conversion throws a plain
`SyntaxError` after the reset and the earlier entries have already been
committed — there is no `MalformedStateError` and no atomicity; see the
counterexample.) -/
theorem c5_import_no_validation (snap : StructureState) (g : GenomeState)
    (hparse : ∀ p ∈ snap.keyMap, (parseBigIntModel p.2).isSome) :
    ∃ km, importStructureState snap g =
      .ok { keyMap := km,
            counter := snap.collisionCounters.foldl (fun c p => setAssoc c p.1 p.2) [],
            idCache := [], sigCache := [], infoCache := [], config := g.config } := by
  obtain ⟨km, hkm⟩ := importKeyMapEntries_ok_exists snap.keyMap [] hparse
  refine ⟨km, ?_⟩
  unfold importStructureState resetState
  rw [hkm]

theorem c5_witness :
    (∀ p ∈ ([("k", "7")] : List (String × String)), (parseBigIntModel p.2).isSome) ∧
    ∃ km, importStructureState ⟨[("k", "7")], [("s", -3)]⟩ initialState =
      .ok { keyMap := km, counter := [("s", -3)], idCache := [], sigCache := [],
            infoCache := [], config := ⟨some false⟩ } :=
  ⟨by decide,
   c5_import_no_validation ⟨[("k", "7")], [("s", -3)]⟩ initialState (by decide)⟩


/-! ## Claim C7: getStructureInfo and the collision counter -/

/-- `getStructureInfo` never modifies the collision counter. -/
theorem getStructureInfo_counter_frame (h : Heap) (v : JSVal)
    (cfg : Option StructureIdConfig) (g : GenomeState) :
    ∀ r g', getStructureInfo h v cfg g = some (r, g') → g'.counter = g.counter := by
  intro r g' hinfo
  unfold getStructureInfo at hinfo
  cases v with
  | ref a =>
    dsimp only at hinfo
    rcases hcache : g.infoCache.lookup a with _ | info <;> rw [hcache] at hinfo <;>
      dsimp only at hinfo
    · -- infoCache miss
      rcases hsigstep : (match g.sigCache.lookup a with
        | some s => some (s, g)
        | none =>
          (generateStructureId h (.ref a) (some ⟨some false⟩) g).map
            (fun p : String × GenomeState =>
              (jsJoin "-" ((jsSplitDash p.1).drop 1), p.2))) with _ | sg
      · rw [hsigstep] at hinfo; cases hinfo
      · have hg1 : sg.2.counter = g.counter := by
          rcases hsc : g.sigCache.lookup a with _ | s <;> rw [hsc] at hsigstep
          · rcases Option.map_eq_some'.mp hsigstep with ⟨⟨id1, g1⟩, hgen, hpr⟩
            rw [← hpr]
            exact generateStructureId_counter_frame h (.ref a) (some ⟨some false⟩) g rfl
              id1 g1 hgen
          · cases hsigstep; rfl
        rw [hsigstep] at hinfo
        dsimp only at hinfo
        split at hinfo
        · cases hinfo
        · rename_i tempId g1 heq
          cases hinfo
          show g1.counter = g.counter
          split at heq
          · cases heq; exact hg1
          · rcases hid : sg.2.idCache.lookup a with _ | cached <;> rw [hid] at heq <;>
              dsimp only at heq
            · rw [generateStructureId_counter_frame h (.ref a) (some ⟨some false⟩) sg.2 rfl
                tempId g1 heq]
              exact hg1
            · cases heq; exact hg1
    · -- infoCache hit: state unchanged
      cases hinfo; rfl
  | vnum =>
    dsimp only at hinfo
    rw [generateStructureId_scalar h .vnum (some ⟨some false⟩) g rfl] at hinfo
    dsimp only at hinfo
    cases hinfo
    rfl
  | vstr =>
    dsimp only at hinfo
    rw [generateStructureId_scalar h .vstr (some ⟨some false⟩) g rfl] at hinfo
    dsimp only at hinfo
    cases hinfo
    rfl
  | vbool =>
    dsimp only at hinfo
    rw [generateStructureId_scalar h .vbool (some ⟨some false⟩) g rfl] at hinfo
    dsimp only at hinfo
    cases hinfo
    rfl
  | vbig =>
    dsimp only at hinfo
    rw [generateStructureId_scalar h .vbig (some ⟨some false⟩) g rfl] at hinfo
    dsimp only at hinfo
    cases hinfo
    rfl
  | vundef =>
    dsimp only at hinfo
    rw [generateStructureId_scalar h .vundef (some ⟨some false⟩) g rfl] at hinfo
    dsimp only at hinfo
    cases hinfo
    rfl
  | vsym =>
    dsimp only at hinfo
    rw [generateStructureId_scalar h .vsym (some ⟨some false⟩) g rfl] at hinfo
    dsimp only at hinfo
    cases hinfo
    rfl
  | vfunc =>
    dsimp only at hinfo
    rw [generateStructureId_scalar h .vfunc (some ⟨some false⟩) g rfl] at hinfo
    dsimp only at hinfo
    cases hinfo
    rfl
  | vnull =>
    dsimp only at hinfo
    rw [generateStructureId_scalar h .vnull (some ⟨some false⟩) g rfl] at hinfo
    dsimp only at hinfo
    cases hinfo
    rfl

/-- A non-reference value always reports the hard-coded
`collisionCount: 0` (source lines 459-466), regardless of the counter's
entry for the scalar's `type:` signature. -/
theorem getStructureInfo_scalar_count (h : Heap) (v : JSVal)
    (cfg : Option StructureIdConfig) (g : GenomeState) (hv : isRefV v = false) :
    ∀ r g', getStructureInfo h v cfg g = some (r, g') → r.collisionCount = 0 := by
  intro r g' hinfo
  unfold getStructureInfo at hinfo
  cases v with
  | ref a => exact absurd hv (by simp [isRefV])
  | vnum =>
    dsimp only at hinfo
    rw [generateStructureId_scalar h .vnum (some ⟨some false⟩) g rfl] at hinfo
    dsimp only at hinfo
    cases hinfo
    rfl
  | vstr =>
    dsimp only at hinfo
    rw [generateStructureId_scalar h .vstr (some ⟨some false⟩) g rfl] at hinfo
    dsimp only at hinfo
    cases hinfo
    rfl
  | vbool =>
    dsimp only at hinfo
    rw [generateStructureId_scalar h .vbool (some ⟨some false⟩) g rfl] at hinfo
    dsimp only at hinfo
    cases hinfo
    rfl
  | vbig =>
    dsimp only at hinfo
    rw [generateStructureId_scalar h .vbig (some ⟨some false⟩) g rfl] at hinfo
    dsimp only at hinfo
    cases hinfo
    rfl
  | vundef =>
    dsimp only at hinfo
    rw [generateStructureId_scalar h .vundef (some ⟨some false⟩) g rfl] at hinfo
    dsimp only at hinfo
    cases hinfo
    rfl
  | vsym =>
    dsimp only at hinfo
    rw [generateStructureId_scalar h .vsym (some ⟨some false⟩) g rfl] at hinfo
    dsimp only at hinfo
    cases hinfo
    rfl
  | vfunc =>
    dsimp only at hinfo
    rw [generateStructureId_scalar h .vfunc (some ⟨some false⟩) g rfl] at hinfo
    dsimp only at hinfo
    cases hinfo
    rfl
  | vnull =>
    dsimp only at hinfo
    rw [generateStructureId_scalar h .vnull (some ⟨some false⟩) g rfl] at hinfo
    dsimp only at hinfo
    cases hinfo
    rfl

/-- When the info bundle is computed fresh (no cached bundle), the
reported `collisionCount` is the counter's current value for the
value's signature — the one `getStructureSignature` yields, whether it
comes from the signature cache or from the internal stable-mode
`generateStructureId` call (which never moves the counter). -/
theorem getStructureInfo_fresh_count (h : Heap) (a : Nat)
    (cfg : Option StructureIdConfig) (g : GenomeState)
    (hmiss : g.infoCache.lookup a = none) :
    ∀ r g', getStructureInfo h (.ref a) cfg g = some (r, g') →
      ∃ s gs, getStructureSignature h (.ref a) g = some (s, gs) ∧
        r.collisionCount = (g.counter.lookup s).getD 0 := by
  intro r g' hinfo
  unfold getStructureInfo at hinfo
  dsimp only at hinfo
  rw [hmiss] at hinfo
  dsimp only at hinfo
  rcases hsc : g.sigCache.lookup a with _ | s <;> rw [hsc] at hinfo <;> dsimp only at hinfo
  · rcases hgen : generateStructureId h (.ref a) (some ⟨some false⟩) g with _ | p
    · rw [hgen] at hinfo
      cases hinfo
    · obtain ⟨id1, g1⟩ := p
      rw [hgen] at hinfo
      dsimp only [Option.map] at hinfo
      refine ⟨jsJoin "-" ((jsSplitDash id1).drop 1),
        { g1 with sigCache := setAssoc g1.sigCache a (jsJoin "-" ((jsSplitDash id1).drop 1)) },
        ?_, ?_⟩
      · unfold getStructureSignature
        dsimp only
        rw [hsc]
        dsimp only
        rw [hgen]
      · have hframe := generateStructureId_counter_frame h (.ref a) (some ⟨some false⟩) g rfl
          id1 g1 hgen
        split at hinfo
        · cases hinfo
        · rename_i tempId g2 heq
          cases hinfo
          dsimp only
          rw [hframe]
  · refine ⟨s, g, ?_, ?_⟩
    · unfold getStructureSignature
      dsimp only
      rw [hsc]
    · split at hinfo
      · cases hinfo
      · rename_i tempId g2 heq
        cases hinfo
        rfl

/-- A cached info bundle is returned verbatim, with the state
untouched. -/
theorem getStructureInfo_cached (h : Heap) (a : Nat) (cfg : Option StructureIdConfig)
    (g : GenomeState) (info : StructureInfo) (hhit : g.infoCache.lookup a = some info) :
    getStructureInfo h (.ref a) cfg g = some (info, g) := by
  unfold getStructureInfo
  dsimp only
  rw [hhit]

/-- C7 (amended): `getStructureInfo` never modifies the Collision
Counter map, in both stable and disambiguating mode.  The
`collisionCount` it returns is: for every non-reference value, the
hard-coded constant `0` — not the counter's value, which can be nonzero
for the scalar's `type:` signature; for an object with no cached info
bundle, the counter's current value for the value's signature (the one
`getStructureSignature` yields), `0` if never registered; and for an
object with a cached bundle, the cached bundle verbatim, whose count is
as of caching time and is stale if the counter moved since (see the
counterexample). -/
theorem c7_collision_count_read_only (h : Heap) (v : JSVal)
    (cfg : Option StructureIdConfig) (g : GenomeState) :
    (∀ r g', getStructureInfo h v cfg g = some (r, g') → g'.counter = g.counter) ∧
    (isRefV v = false → ∀ r g', getStructureInfo h v cfg g = some (r, g') →
      r.collisionCount = 0) ∧
    (∀ a r g', v = .ref a → g.infoCache.lookup a = none →
      getStructureInfo h v cfg g = some (r, g') →
      ∃ s gs, getStructureSignature h v g = some (s, gs) ∧
        r.collisionCount = (g.counter.lookup s).getD 0) ∧
    (∀ a info, v = .ref a → g.infoCache.lookup a = some info →
      getStructureInfo h v cfg g = some (info, g)) := by
  refine ⟨getStructureInfo_counter_frame h v cfg g,
    getStructureInfo_scalar_count h v cfg g, ?_, ?_⟩
  · intro a r g' hv hmiss hinfo
    subst hv
    exact getStructureInfo_fresh_count h a cfg g hmiss r g' hinfo
  · intro a info hv hhit
    subst hv
    exact getStructureInfo_cached h a cfg g info hhit

theorem c7_witness :
    (∀ r g', getStructureInfo [HeapObj.obj [("a", JSVal.vnum)]] (JSVal.ref 0) none
        ⟨[], [("type:number", 5), ("L1:7", 4)], [], [(0, "L1:7")], [], ⟨some false⟩⟩
        = some (r, g') →
      g'.counter = [("type:number", 5), ("L1:7", 4)] ∧ r.collisionCount = 4) ∧
    (∀ r g', getStructureInfo [HeapObj.obj [("a", JSVal.vnum)]] JSVal.vnum none
        ⟨[], [("type:number", 5), ("L1:7", 4)], [], [(0, "L1:7")], [], ⟨some false⟩⟩
        = some (r, g') →
      r.collisionCount = 0) ∧
    ([(("type:number" : String), (5 : Int)), ("L1:7", 4)].lookup "type:number" = some 5) ∧
    (getStructureInfo [HeapObj.obj [("a", JSVal.vnum)]] (JSVal.ref 0) none
        ⟨[], [("type:number", 5), ("L1:7", 4)], [], [(0, "L1:7")], [], ⟨some false⟩⟩).isSome ∧
    (getStructureInfo [HeapObj.obj [("a", JSVal.vnum)]] JSVal.vnum none
        ⟨[], [("type:number", 5), ("L1:7", 4)], [], [(0, "L1:7")], [], ⟨some false⟩⟩).isSome ∧
    getStructureInfo [HeapObj.obj [("a", JSVal.vnum)]] (JSVal.ref 0) none
        ⟨[], [], [], [], [(0, ⟨"L0:9-L1:7", 2, 0⟩)], ⟨some false⟩⟩
      = some (⟨"L0:9-L1:7", 2, 0⟩,
          ⟨[], [], [], [], [(0, ⟨"L0:9-L1:7", 2, 0⟩)], ⟨some false⟩⟩) := by
  have hc7r := c7_collision_count_read_only [HeapObj.obj [("a", JSVal.vnum)]] (JSVal.ref 0) none
    ⟨[], [("type:number", 5), ("L1:7", 4)], [], [(0, "L1:7")], [], ⟨some false⟩⟩
  have hc7s := c7_collision_count_read_only [HeapObj.obj [("a", JSVal.vnum)]] JSVal.vnum none
    ⟨[], [("type:number", 5), ("L1:7", 4)], [], [(0, "L1:7")], [], ⟨some false⟩⟩
  have hc7c := c7_collision_count_read_only [HeapObj.obj [("a", JSVal.vnum)]] (JSVal.ref 0) none
    ⟨[], [], [], [], [(0, ⟨"L0:9-L1:7", 2, 0⟩)], ⟨some false⟩⟩
  refine ⟨fun r g' hinfo => ⟨hc7r.1 r g' hinfo, ?_⟩,
    fun r g' hinfo => hc7s.2.1 rfl r g' hinfo,
    rfl, by decide, by decide,
    hc7c.2.2.2 0 ⟨"L0:9-L1:7", 2, 0⟩ rfl rfl⟩
  obtain ⟨s, gs, hsig, hcount⟩ := hc7r.2.2.1 0 r g' rfl rfl hinfo
  have hsv : getStructureSignature [HeapObj.obj [("a", JSVal.vnum)]] (JSVal.ref 0)
      ⟨[], [("type:number", 5), ("L1:7", 4)], [], [(0, "L1:7")], [], ⟨some false⟩⟩
      = some ("L1:7",
          ⟨[], [("type:number", 5), ("L1:7", 4)], [], [(0, "L1:7")], [], ⟨some false⟩⟩) := by
    decide
  rw [hsv] at hsig
  injection hsig with hpr
  injection hpr with hs hgs
  rw [← hs] at hcount
  rw [hcount]
  decide

/-- C7 (counterexample): after `getStructureInfo` has cached a bundle
for an object, registering that object's structure with count 5 moves
the counter, but a second `getStructureInfo` call serves the cached
bundle with the old `collisionCount` 0 — not the counter's current
value 5 that the claim demands. -/
theorem c7_counterexample :
    ((getStructureInfo [.obj [("a", .vnum)]] (.ref 0) none initialState).bind (fun p1 =>
      (registerStructure [.obj [("a", .vnum)]] (.ref 0) 5 p1.2).bind (fun g2 =>
        (getStructureInfo [.obj [("a", .vnum)]] (.ref 0) none g2).map (fun p2 =>
          (p2.1.collisionCount,
           (g2.counter.lookup ((g2.sigCache.lookup 0).getD "")).getD 0)))))
      = some (0, 5) ∧ (0 : Int) ≠ 5 := by
  constructor
  · decide
  · decide


/-! ## Claim C1: order independence of property insertion -/

theorem heapGet_equiv {h₁ h₂ : Heap} (hE : HeapEquiv h₁ h₂) (a : Nat) :
    heapObjEquiv (heapGet h₁ a) (heapGet h₂ a) := by
  induction hE generalizing a with
  | nil => exact ⟨List.Perm.nil, List.nodup_nil⟩
  | cons hrel _ ih =>
    cases a with
    | zero => exact hrel
    | succ n => exact ih n

theorem isEmpty_eq_of_perm {α : Type} {l₁ l₂ : List α} (hp : l₁.Perm l₂) :
    l₁.isEmpty = l₂.isEmpty := by
  have hl := hp.length_eq
  cases l₁ <;> cases l₂ <;> simp_all

theorem isArr_eq {h₁ h₂ : Heap} (hE : HeapEquiv h₁ h₂) (a : Nat) :
    isArr h₁ a = isArr h₂ a := by
  have hrel := heapGet_equiv hE a
  unfold isArr
  rcases hg1 : heapGet h₁ a with f₁ | e₁ <;> rcases hg2 : heapGet h₂ a with f₂ | e₂ <;>
      rw [hg1, hg2] at hrel <;>
    first
      | rfl
      | exact hrel.elim

theorem objFields_equiv {h₁ h₂ : Heap} (hE : HeapEquiv h₁ h₂) (a : Nat) :
    (objFields h₁ a).Perm (objFields h₂ a) ∧ ((objFields h₁ a).map Prod.fst).Nodup := by
  have hrel := heapGet_equiv hE a
  unfold objFields
  rcases hg1 : heapGet h₁ a with f₁ | e₁ <;> rcases hg2 : heapGet h₂ a with f₂ | e₂ <;>
      rw [hg1, hg2] at hrel <;>
    first
      | exact hrel.elim
      | exact ⟨List.Perm.nil, List.nodup_nil⟩
      | exact hrel

theorem arrElems_eq {h₁ h₂ : Heap} (hE : HeapEquiv h₁ h₂) (a : Nat) :
    arrElems h₁ a = arrElems h₂ a := by
  have hrel := heapGet_equiv hE a
  unfold arrElems
  rcases hg1 : heapGet h₁ a with f₁ | e₁ <;> rcases hg2 : heapGet h₂ a with f₂ | e₂ <;>
      rw [hg1, hg2] at hrel <;>
    first
      | rfl
      | exact hrel.elim
      | exact hrel

theorem getType_eq {h₁ h₂ : Heap} (hE : HeapEquiv h₁ h₂) (v : JSVal) :
    getType h₁ v = getType h₂ v := by
  cases v with
  | ref a => unfold getType; dsimp only; rw [isArr_eq hE a]
  | vnum => rfl
  | vstr => rfl
  | vbool => rfl
  | vbig => rfl
  | vundef => rfl
  | vsym => rfl
  | vfunc => rfl
  | vnull => rfl

theorem heapEmptyAt_eq {h₁ h₂ : Heap} (hE : HeapEquiv h₁ h₂) (a : Nat) :
    heapEmptyAt h₁ a = heapEmptyAt h₂ a := by
  have hrel := heapGet_equiv hE a
  unfold heapEmptyAt
  rcases hg1 : heapGet h₁ a with f₁ | e₁ <;> rcases hg2 : heapGet h₂ a with f₂ | e₂ <;>
      rw [hg1, hg2] at hrel <;>
    first
      | exact hrel.elim
      | (obtain ⟨hp, -⟩ := hrel
         exact isEmpty_eq_of_perm hp)
      | rw [show e₁ = e₂ from hrel]

theorem sortedKeys_eq {h₁ h₂ : Heap} (hE : HeapEquiv h₁ h₂) (a : Nat) :
    sortStrings ((objFields h₁ a).map Prod.fst) = sortStrings ((objFields h₂ a).map Prod.fst) :=
  sortStrings_congr ((objFields_equiv hE a).1.map Prod.fst)

theorem getObjectSignature_eq {h₁ h₂ : Heap} (hE : HeapEquiv h₁ h₂) (a : Nat)
    (path : List String) : getObjectSignature h₁ a path = getObjectSignature h₂ a path := by
  unfold getObjectSignature
  rw [isArr_eq hE a, sortedKeys_eq hE a, arrElems_eq hE a]

theorem getField_eq {h₁ h₂ : Heap} (hE : HeapEquiv h₁ h₂) (a : Nat) (k : String) :
    getField h₁ a k = getField h₂ a k := by
  unfold getField
  rw [lookup_eq_of_perm (objFields_equiv hE a).1 (objFields_equiv hE a).2 k]

theorem isEmptyObjectAt_eq {h₁ h₂ : Heap} (hE : HeapEquiv h₁ h₂) (v : JSVal) :
    isEmptyObjectAt h₁ v = isEmptyObjectAt h₂ v := by
  cases v with
  | ref a =>
    unfold isEmptyObjectAt
    dsimp only
    rw [isArr_eq hE a, isEmpty_eq_of_perm (objFields_equiv hE a).1]
  | vnum => rfl
  | vstr => rfl
  | vbool => rfl
  | vbig => rfl
  | vundef => rfl
  | vsym => rfl
  | vfunc => rfl
  | vnull => rfl

theorem isEmptyArrayAt_eq {h₁ h₂ : Heap} (hE : HeapEquiv h₁ h₂) (v : JSVal) :
    isEmptyArrayAt h₁ v = isEmptyArrayAt h₂ v := by
  cases v with
  | ref a => unfold isEmptyArrayAt; dsimp only; rw [isArr_eq hE a, arrElems_eq hE a]
  | vnum => rfl
  | vstr => rfl
  | vbool => rfl
  | vbig => rfl
  | vundef => rfl
  | vsym => rfl
  | vfunc => rfl
  | vnull => rfl

theorem foldlM_congr {α β : Type} (f g : β → α → Option β) (hfg : ∀ b x, f b x = g b x) :
    ∀ (l : List α) (b : β), l.foldlM f b = l.foldlM g b := by
  intro l
  induction l with
  | nil => intro b; rfl
  | cons x xs ih =>
    intro b
    rw [List.foldlM_cons, List.foldlM_cons, hfg b x]
    rcases hgb : g b x with _ | mid
    · rfl
    · show xs.foldlM f mid = xs.foldlM g mid
      exact ih mid

theorem processKey_congr {h₁ h₂ : Heap} (hE : HeapEquiv h₁ h₂) (a level : Nat)
    (path : List String) (next₁ next₂ : JSVal → List String → TravState → Option TravState)
    (hnext : ∀ c p s, next₁ c p s = next₂ c p s) :
    ∀ acc k, processKey h₁ next₁ a level path acc k = processKey h₂ next₂ a level path acc k := by
  intro acc k
  simp only [processKey, getField_eq hE, getType_eq hE, hnext]

theorem processElem_congr {h₁ h₂ : Heap} (hE : HeapEquiv h₁ h₂) (level : Nat)
    (path : List String) (next₁ next₂ : JSVal → List String → TravState → Option TravState)
    (hnext : ∀ c p s, next₁ c p s = next₂ c p s) :
    ∀ acc q, processElem h₁ next₁ level path acc q = processElem h₂ next₂ level path acc q := by
  intro acc q
  simp only [processElem, getType_eq hE, hnext]

theorem processStructure_heapEquiv {h₁ h₂ : Heap} (hE : HeapEquiv h₁ h₂) :
    ∀ fuel v level path st,
      processStructure h₁ fuel v level path st = processStructure h₂ fuel v level path st := by
  intro fuel
  induction fuel with
  | zero => intro v level path st; rfl
  | succ fuel ih =>
    intro v level path st
    simp only [processStructure]
    rw [getType_eq hE v]
    split
    · rfl
    · cases v with
      | ref a =>
        dsimp only
        rw [getObjectSignature_eq hE a path]
        rcases hom : st.objectMap.lookup a with _ | circ <;> dsimp only
        · rw [heapEmptyAt_eq hE a]
          split
          · rfl
          · split
            · rw [sortedKeys_eq hE a,
                foldlM_congr _ _ (processKey_congr hE a level path _ _
                  (fun c p s => ih c (level + 1) p s)) _ _]
            · rw [arrElems_eq hE a,
                foldlM_congr _ _ (processElem_congr hE level path _ _
                  (fun c p s => ih c (level + 1) p s)) _ _]
      | vnum => rfl
      | vstr => rfl
      | vbool => rfl
      | vbig => rfl
      | vundef => rfl
      | vsym => rfl
      | vfunc => rfl
      | vnull => rfl

/-- C1: order independence.  For two presentations of the same value
graph in which every record's properties may have been inserted in a
different order (identical key sets, identical child values, no change
anywhere else), `generateStructureId` returns identical results — keys
are canonicalized by sorting in ascending lexicographic order of the
raw key string before processing. -/
theorem c1_order_independence (h₁ h₂ : Heap) (v : JSVal) (cfg : Option StructureIdConfig)
    (g : GenomeState) (hE : HeapEquiv h₁ h₂) :
    generateStructureId h₁ v cfg g = generateStructureId h₂ v cfg g := by
  unfold generateStructureId
  rw [isEmptyObjectAt_eq hE v, isEmptyArrayAt_eq hE v]
  split
  · rfl
  · split
    · rfl
    · cases v with
      | ref a =>
        dsimp only
        split
        · rfl
        · rw [List.Forall₂.length_eq hE, processStructure_heapEquiv hE]
      | vnum => rfl
      | vstr => rfl
      | vbool => rfl
      | vbig => rfl
      | vundef => rfl
      | vsym => rfl
      | vfunc => rfl
      | vnull => rfl

theorem c1_witness :
    HeapEquiv [HeapObj.obj [("a", JSVal.vnum), ("b", JSVal.vbool)]]
        [HeapObj.obj [("b", JSVal.vbool), ("a", JSVal.vnum)]] ∧
    generateStructureId [HeapObj.obj [("a", JSVal.vnum), ("b", JSVal.vbool)]]
        (.ref 0) none initialState
      = generateStructureId [HeapObj.obj [("b", JSVal.vbool), ("a", JSVal.vnum)]]
        (.ref 0) none initialState := by
  have hE : HeapEquiv [HeapObj.obj [("a", JSVal.vnum), ("b", JSVal.vbool)]]
      [HeapObj.obj [("b", JSVal.vbool), ("a", JSVal.vnum)]] :=
    List.Forall₂.cons
      ⟨List.Perm.swap ("b", JSVal.vbool) ("a", JSVal.vnum) [], by decide⟩ List.Forall₂.nil
  exact ⟨hE, c1_order_independence _ _ (.ref 0) none initialState hE⟩


/-! ## Claim C3: export/import round trip -/

theorem importKeyMapEntries_map_toString :
    ∀ (l : List (String × Int)) (acc : List (String × Int)),
    importKeyMapEntries (l.map (fun p => (p.1, toString p.2))) acc
      = .ok (l.foldl (fun c p => setAssoc c p.1 p.2) acc) := by
  intro l
  induction l with
  | nil => intro acc; rfl
  | cons p rest ih =>
    intro acc
    obtain ⟨k, v⟩ := p
    show importKeyMapEntries ((k, toString v) :: rest.map (fun p => (p.1, toString p.2))) acc = _
    unfold importKeyMapEntries
    rw [parseBigIntModel_toString v]
    exact ih _

/-- Importing the current export restores the key map and the collision
counters exactly and clears the caches. -/
theorem import_export_state (g : GenomeState)
    (hnk : (g.keyMap.map Prod.fst).Nodup) (hnc : (g.counter.map Prod.fst).Nodup) :
    importStructureState (exportStructureState g) g = .ok (clearCaches g) := by
  unfold importStructureState exportStructureState resetState clearCaches
  rw [importKeyMapEntries_map_toString g.keyMap []]
  dsimp only
  rw [foldl_setAssoc_append g.keyMap [] (fun p _ => rfl) hnk,
    foldl_setAssoc_append g.counter [] (fun p _ => rfl) hnc]
  simp

theorem genId_emptyObj (h : Heap) (v : JSVal) (cfg : Option StructureIdConfig)
    (g : GenomeState) (hm : isEmptyObjectAt h v = true) :
    generateStructureId h v cfg g = some ("\x7b\x7d", g) := by
  unfold generateStructureId
  rw [if_pos hm]

theorem genId_emptyArr (h : Heap) (v : JSVal) (cfg : Option StructureIdConfig)
    (g : GenomeState) (hno : isEmptyObjectAt h v = false) (hm : isEmptyArrayAt h v = true) :
    generateStructureId h v cfg g = some ("[]", g) := by
  unfold generateStructureId
  rw [if_neg (by simp [hno]), if_pos hm]

/-- The id string computed in collision mode depends only on the key map
and the counter, not on the caches. -/
theorem genId_compute_eq_collision (h : Heap) (a : Nat) (cfgArg : Option StructureIdConfig)
    (g₁ g₂ : GenomeState)
    (hkm : g₁.keyMap = g₂.keyMap) (hctr : g₁.counter = g₂.counter) (hcfg : g₁.config = g₂.config)
    (hflag : (cfgArg.getD g₂.config).newIdOnCollision.getD false = true) :
    (generateStructureId h (.ref a) cfgArg g₁).map Prod.fst
      = (generateStructureId h (.ref a) cfgArg g₂).map Prod.fst := by
  unfold generateStructureId
  dsimp only
  simp only [hkm, hctr, hcfg, hflag, not_true, false_and, if_false]
  split
  · rfl
  · split
    · rfl
    · rcases hts : processStructure h (h.length + 1) (.ref a) 0 [] ⟨[], [], g₂.keyMap⟩
        with _ | ts <;> dsimp only
      all_goals rfl

/-- The id string computed in stable mode with no cached entry depends
only on the key map, not on the counter or the caches. -/
theorem genId_compute_eq_stable (h : Heap) (a : Nat) (cfgArg : Option StructureIdConfig)
    (g₁ g₂ : GenomeState)
    (hkm : g₁.keyMap = g₂.keyMap) (hcfg : g₁.config = g₂.config)
    (hflag : (cfgArg.getD g₂.config).newIdOnCollision.getD false = false)
    (hc₁ : g₁.idCache.lookup a = none) (hc₂ : g₂.idCache.lookup a = none) :
    (generateStructureId h (.ref a) cfgArg g₁).map Prod.fst
      = (generateStructureId h (.ref a) cfgArg g₂).map Prod.fst := by
  unfold generateStructureId
  dsimp only
  simp only [hkm, hcfg, hflag, hc₁, hc₂, Option.isSome_none, Bool.false_eq_true, and_false,
    if_false]
  split
  · rfl
  · split
    · rfl
    · rcases hts : processStructure h (h.length + 1) (.ref a) 0 [] ⟨[], [], g₂.keyMap⟩
        with _ | ts <;> dsimp only
      all_goals rfl

/-- Clearing the caches never changes the string `generateStructureId`
returns, provided any cached entry was consistent. -/
theorem genId_clearCaches_eq (h : Heap) (g : GenomeState) (hcc : CacheConsistent h g)
    (v : JSVal) (cfgArg : Option StructureIdConfig) :
    (generateStructureId h v cfgArg (clearCaches g)).map Prod.fst
      = (generateStructureId h v cfgArg g).map Prod.fst := by
  cases v with
  | ref a =>
    by_cases hEO : isEmptyObjectAt h (.ref a) = true
    · rw [genId_emptyObj h _ cfgArg (clearCaches g) hEO, genId_emptyObj h _ cfgArg g hEO]
      rfl
    · have hEO' : isEmptyObjectAt h (.ref a) = false := by
        cases hh : isEmptyObjectAt h (.ref a)
        · rfl
        · exact absurd hh hEO
      by_cases hEA : isEmptyArrayAt h (.ref a) = true
      · rw [genId_emptyArr h _ cfgArg (clearCaches g) hEO' hEA,
          genId_emptyArr h _ cfgArg g hEO' hEA]
        rfl
      · by_cases hflag : (cfgArg.getD g.config).newIdOnCollision.getD false = true
        · exact genId_compute_eq_collision h a cfgArg (clearCaches g) g rfl rfl rfl hflag
        · have hflag0 : (cfgArg.getD g.config).newIdOnCollision.getD false = false := by
            cases hh : (cfgArg.getD g.config).newIdOnCollision.getD false
            · rfl
            · exact absurd hh hflag
          rcases hcache : g.idCache.lookup a with _ | c
          · exact genId_compute_eq_stable h a cfgArg (clearCaches g) g rfl rfl hflag0
              (by show List.lookup a [] = none; rfl) hcache
          · have h1 : (generateStructureId h (.ref a) cfgArg (clearCaches g)).map Prod.fst
                = (generateStructureId h (.ref a) (some ⟨some false⟩)
                    (clearCaches g)).map Prod.fst := by
              rw [generateStructureId_flag_congr h (.ref a) (clearCaches g) cfgArg
                (some ⟨some false⟩) hflag0]
            rw [h1, hcc a c hcache]
            unfold generateStructureId
            dsimp only
            rw [if_neg (by simp [hEO']), if_neg (by simp [hEA]),
              if_pos ⟨by simp [hflag0], by simp [hcache]⟩, hcache]
            rfl
  | vnum =>
    rw [generateStructureId_scalar h .vnum cfgArg (clearCaches g) rfl,
      generateStructureId_scalar h .vnum cfgArg g rfl]
    rfl
  | vstr =>
    rw [generateStructureId_scalar h .vstr cfgArg (clearCaches g) rfl,
      generateStructureId_scalar h .vstr cfgArg g rfl]
    rfl
  | vbool =>
    rw [generateStructureId_scalar h .vbool cfgArg (clearCaches g) rfl,
      generateStructureId_scalar h .vbool cfgArg g rfl]
    rfl
  | vbig =>
    rw [generateStructureId_scalar h .vbig cfgArg (clearCaches g) rfl,
      generateStructureId_scalar h .vbig cfgArg g rfl]
    rfl
  | vundef =>
    rw [generateStructureId_scalar h .vundef cfgArg (clearCaches g) rfl,
      generateStructureId_scalar h .vundef cfgArg g rfl]
    rfl
  | vsym =>
    rw [generateStructureId_scalar h .vsym cfgArg (clearCaches g) rfl,
      generateStructureId_scalar h .vsym cfgArg g rfl]
    rfl
  | vfunc =>
    rw [generateStructureId_scalar h .vfunc cfgArg (clearCaches g) rfl,
      generateStructureId_scalar h .vfunc cfgArg g rfl]
    rfl
  | vnull =>
    rw [generateStructureId_scalar h .vnull cfgArg (clearCaches g) rfl,
      generateStructureId_scalar h .vnull cfgArg g rfl]
    rfl

/-- C3: export/import round trip.  For a process state whose key map and
counter map have no duplicate keys and whose id cache is consistent (an
invariant of every reachable state), `importStructureState
(exportStructureState state)` succeeds, restoring the Key Bit map and
the Collision Counter map exactly (caches cleared, configuration kept);
and every subsequent `generateStructureId` call — any value, any
configuration — returns a string identical to the one it would have
returned before the export/import. -/
theorem c3_export_import_roundtrip (h : Heap) (g : GenomeState)
    (hnk : (g.keyMap.map Prod.fst).Nodup) (hnc : (g.counter.map Prod.fst).Nodup)
    (hcc : CacheConsistent h g) :
    importStructureState (exportStructureState g) g = .ok (clearCaches g) ∧
    ∀ (v : JSVal) (cfgArg : Option StructureIdConfig),
      (generateStructureId h v cfgArg (clearCaches g)).map Prod.fst
        = (generateStructureId h v cfgArg g).map Prod.fst :=
  ⟨import_export_state g hnk hnc, fun v cfgArg => genId_clearCaches_eq h g hcc v cfgArg⟩

theorem c3_witness :
    ((initialState.keyMap.map Prod.fst).Nodup ∧ (initialState.counter.map Prod.fst).Nodup ∧
      CacheConsistent [HeapObj.obj [("a", JSVal.vnum)]] initialState) ∧
    importStructureState (exportStructureState initialState) initialState
        = .ok (clearCaches initialState) ∧
    ∀ (v : JSVal) (cfgArg : Option StructureIdConfig),
      (generateStructureId [HeapObj.obj [("a", JSVal.vnum)]] v cfgArg
          (clearCaches initialState)).map Prod.fst
        = (generateStructureId [HeapObj.obj [("a", JSVal.vnum)]] v cfgArg
          initialState).map Prod.fst := by
  have hcc : CacheConsistent [HeapObj.obj [("a", JSVal.vnum)]] initialState := by
    intro a c hc
    simp [initialState, List.lookup] at hc
  exact ⟨⟨by simp [initialState], by simp [initialState], hcc⟩,
    c3_export_import_roundtrip [HeapObj.obj [("a", JSVal.vnum)]] initialState
      (by simp [initialState]) (by simp [initialState]) hcc⟩


/-! ## Claim C2: canonical key maps and key-map irrelevance -/

theorem canonicalKm_nil : CanonicalKm [] := by
  intro k v hv
  simp [List.lookup] at hv

theorem getBit_canonical_fst {km : List (String × Int)} (hc : CanonicalKm km) (k : String) :
    (getBit km k).1 = (xxHash32 k : Int) := by
  unfold getBit
  rcases hl : km.lookup k with _ | v <;> dsimp only
  exact hc k v hl

theorem getBit_canonical_snd {km : List (String × Int)} (hc : CanonicalKm km) (k : String) :
    CanonicalKm (getBit km k).2 := by
  unfold getBit
  rcases hl : km.lookup k with _ | v <;> dsimp only
  · intro k' v' hv'
    rw [List.lookup_append] at hv'
    rcases hk : List.lookup k' km with _ | w <;> rw [hk] at hv'
    · simp only [Option.none_or] at hv'
      rw [lookup_cons'] at hv'
      by_cases hkk : k' = k
      · rw [if_pos hkk] at hv'
        cases hv'
        rw [hkk]
      · rw [if_neg hkk] at hv'
        simp [List.lookup] at hv'
    · dsimp only [Option.or] at hv'
      cases hv'
      exact hc _ _ hk
  · exact hc

theorem tsRel_map_fst {x y : Option (TravState × Int)} (hr : AccRel x y) :
    TsRel (x.map Prod.fst) (y.map Prod.fst) := by
  rcases x with _ | a₁ <;> rcases y with _ | a₂
  · trivial
  · exact hr.elim
  · exact hr.elim
  · exact ⟨hr.1, hr.2.1, hr.2.2.1, hr.2.2.2.1⟩

theorem foldlM_accRel {α : Type} {f : (TravState × Int) → α → Option (TravState × Int)}
    (hf : ∀ acc₁ acc₂ x, acc₁.1.levels = acc₂.1.levels → acc₁.1.objectMap = acc₂.1.objectMap →
      CanonicalKm acc₁.1.keyMap → CanonicalKm acc₂.1.keyMap → acc₁.2 = acc₂.2 →
      AccRel (f acc₁ x) (f acc₂ x)) :
    ∀ (l : List α) acc₁ acc₂, acc₁.1.levels = acc₂.1.levels →
      acc₁.1.objectMap = acc₂.1.objectMap →
      CanonicalKm acc₁.1.keyMap → CanonicalKm acc₂.1.keyMap → acc₁.2 = acc₂.2 →
      AccRel (l.foldlM f acc₁) (l.foldlM f acc₂) := by
  intro l
  induction l with
  | nil =>
    intro acc₁ acc₂ h1 h2 h3 h4 h5
    exact ⟨h1, h2, h3, h4, h5⟩
  | cons x xs ih =>
    intro acc₁ acc₂ h1 h2 h3 h4 h5
    rw [List.foldlM_cons, List.foldlM_cons]
    have hhead := hf acc₁ acc₂ x h1 h2 h3 h4 h5
    rcases hm1 : f acc₁ x with _ | mid₁ <;> rcases hm2 : f acc₂ x with _ | mid₂ <;>
      rw [hm1, hm2] at hhead
    · exact trivial
    · exact hhead.elim
    · exact hhead.elim
    · show AccRel (xs.foldlM f mid₁) (xs.foldlM f mid₂)
      exact ih mid₁ mid₂ hhead.1 hhead.2.1 hhead.2.2.1 hhead.2.2.2.1 hhead.2.2.2.2

theorem accRel_map_succ {x y : Option TravState} (m : Int) (hr : TsRel x y) :
    AccRel (x.map (fun st' => (st', m + 1))) (y.map (fun st' => (st', m + 1))) := by
  rcases x with _ | s₁ <;> rcases y with _ | s₂
  · trivial
  · exact hr.elim
  · exact hr.elim
  · exact ⟨hr.1, hr.2.1, hr.2.2.1, hr.2.2.2, rfl⟩

theorem processKey_accRel {h : Heap} {next : JSVal → List String → TravState → Option TravState}
    {a level path}
    (hnext : ∀ c p s₁ s₂, s₁.levels = s₂.levels → s₁.objectMap = s₂.objectMap →
      CanonicalKm s₁.keyMap → CanonicalKm s₂.keyMap → TsRel (next c p s₁) (next c p s₂)) :
    ∀ (acc₁ acc₂ : TravState × Int) (k : String),
      acc₁.1.levels = acc₂.1.levels → acc₁.1.objectMap = acc₂.1.objectMap →
      CanonicalKm acc₁.1.keyMap → CanonicalKm acc₂.1.keyMap → acc₁.2 = acc₂.2 →
      AccRel (processKey h next a level path acc₁ k) (processKey h next a level path acc₂ k) := by
  intro acc₁ acc₂ k h1 h2 h3 h4 h5
  unfold processKey
  dsimp only
  rw [getBit_canonical_fst h3, getBit_canonical_fst h4, h1, h5]
  exact accRel_map_succ _ (hnext _ _ _ _ rfl h2
    (getBit_canonical_snd h3 k) (getBit_canonical_snd h4 k))

theorem processElem_accRel {h : Heap} {next : JSVal → List String → TravState → Option TravState}
    {level path}
    (hnext : ∀ c p s₁ s₂, s₁.levels = s₂.levels → s₁.objectMap = s₂.objectMap →
      CanonicalKm s₁.keyMap → CanonicalKm s₂.keyMap → TsRel (next c p s₁) (next c p s₂)) :
    ∀ (acc₁ acc₂ : TravState × Int) (q : Nat × JSVal),
      acc₁.1.levels = acc₂.1.levels → acc₁.1.objectMap = acc₂.1.objectMap →
      CanonicalKm acc₁.1.keyMap → CanonicalKm acc₂.1.keyMap → acc₁.2 = acc₂.2 →
      AccRel (processElem h next level path acc₁ q) (processElem h next level path acc₂ q) := by
  intro acc₁ acc₂ q h1 h2 h3 h4 h5
  unfold processElem
  dsimp only
  rw [getBit_canonical_fst h3, getBit_canonical_fst h4, h1, h5]
  exact accRel_map_succ _ (hnext _ _ _ _ rfl h2
    (getBit_canonical_snd h3 _) (getBit_canonical_snd h4 _))

theorem processStructure_canonical (h : Heap) :
    ∀ fuel v level path (st₁ st₂ : TravState),
      st₁.levels = st₂.levels → st₁.objectMap = st₂.objectMap →
      CanonicalKm st₁.keyMap → CanonicalKm st₂.keyMap →
      TsRel (processStructure h fuel v level path st₁) (processStructure h fuel v level path st₂) := by
  intro fuel
  induction fuel with
  | zero => intro v level path st₁ st₂ _ _ _ _; trivial
  | succ fuel ih =>
    intro v level path st₁ st₂ h1 h2 h3 h4
    simp only [processStructure]
    split
    · exact ⟨by rw [h1], h2, h3, h4⟩
    · cases v with
      | ref a =>
        dsimp only
        rw [h2]
        rcases hom : st₂.objectMap.lookup a with _ | circ <;> dsimp only
        · rw [h1]
          split
          · exact ⟨by dsimp only; rw [getBit_canonical_fst h3, getBit_canonical_fst h4],
              by dsimp only,
              getBit_canonical_snd h3 _, getBit_canonical_snd h4 _⟩
          · split
            · refine tsRel_map_fst (foldlM_accRel (processKey_accRel ?_) _ _ _ ?_ ?_ ?_ ?_ rfl)
              · intro c p s₁ s₂ e1 e2 e3 e4
                exact ih c (level + 1) p s₁ s₂ e1 e2 e3 e4
              · dsimp only
                rw [getBit_canonical_fst h3, getBit_canonical_fst h4]
              · dsimp only
              · exact getBit_canonical_snd h3 _
              · exact getBit_canonical_snd h4 _
            · refine tsRel_map_fst (foldlM_accRel (processElem_accRel ?_) _ _ _ ?_ ?_ ?_ ?_ rfl)
              · intro c p s₁ s₂ e1 e2 e3 e4
                exact ih c (level + 1) p s₁ s₂ e1 e2 e3 e4
              · dsimp only
                rw [getBit_canonical_fst h3, getBit_canonical_fst h4,
                  getBit_canonical_fst (getBit_canonical_snd h3 _),
                  getBit_canonical_fst (getBit_canonical_snd h4 _)]
              · dsimp only
              · exact getBit_canonical_snd (getBit_canonical_snd h3 _) _
              · exact getBit_canonical_snd (getBit_canonical_snd h4 _) _
        · exact ⟨by dsimp only; rw [h1, getBit_canonical_fst h3, getBit_canonical_fst h4], rfl,
            getBit_canonical_snd h3 _, getBit_canonical_snd h4 _⟩
      | vnum => exact ⟨by rw [h1], h2, h3, h4⟩
      | vstr => exact ⟨by rw [h1], h2, h3, h4⟩
      | vbool => exact ⟨by rw [h1], h2, h3, h4⟩
      | vbig => exact ⟨by rw [h1], h2, h3, h4⟩
      | vundef => exact ⟨by rw [h1], h2, h3, h4⟩
      | vsym => exact ⟨by rw [h1], h2, h3, h4⟩
      | vfunc => exact ⟨by rw [h1], h2, h3, h4⟩
      | vnull => exact ⟨by rw [h1], h2, h3, h4⟩


/-! ## Claim C2: contiguity of the level-hash map -/

theorem contig_lookup_isSome {m : List (Nat × Int)} (hc : ContigLevels m) (k : Nat) :
    (m.lookup k).isSome ↔ k < m.length := by
  rw [lookup_isSome_iff_mem_keys, hc, List.mem_range]

theorem lhInit_contig {m : List (Nat × Int)} {level : Nat}
    (hc : ContigLevels m) (hle : level ≤ m.length) :
    ContigLevels (lhInit m level) ∧ m.length ≤ (lhInit m level).length ∧
      level < (lhInit m level).length := by
  unfold lhInit
  by_cases hl : level < m.length
  · rw [if_pos ((contig_lookup_isSome hc level).mpr hl)]
    exact ⟨hc, le_refl _, hl⟩
  · have hlev : level = m.length := le_antisymm hle (not_lt.mp hl)
    rw [if_neg (fun hcond => hl ((contig_lookup_isSome hc level).mp hcond))]
    refine ⟨?_, by simp, by simp [hlev]⟩
    show (m ++ [(level, (2 : Int) ^ level)]).map Prod.fst = List.range _
    rw [List.map_append, hc, List.length_append]
    simp only [List.map_cons, List.map_nil, List.length_cons, List.length_nil, hlev]
    rw [List.range_succ]

theorem lhAdd_map_fst (m : List (Nat × Int)) (level : Nat) (x : Int) :
    (lhAdd m level x).map Prod.fst = m.map Prod.fst := by
  unfold lhAdd
  rw [List.map_map]
  refine List.map_congr_left ?_
  intro p _
  dsimp only [Function.comp]
  split <;> rfl

theorem lhAdd_length (m : List (Nat × Int)) (level : Nat) (x : Int) :
    (lhAdd m level x).length = m.length := by
  unfold lhAdd
  rw [List.length_map]

theorem lhAdd_contig {m : List (Nat × Int)} (hc : ContigLevels m) (level : Nat) (x : Int) :
    ContigLevels (lhAdd m level x) := by
  show (lhAdd m level x).map Prod.fst = _
  rw [lhAdd_map_fst, lhAdd_length]
  exact hc

theorem lhAdd_triple {m : List (Nat × Int)} {level n : Nat} (x : Int)
    (H : ContigLevels m ∧ n ≤ m.length ∧ level < m.length) :
    ContigLevels (lhAdd m level x) ∧ n ≤ (lhAdd m level x).length ∧
      level < (lhAdd m level x).length :=
  ⟨lhAdd_contig H.1 level x, by rw [lhAdd_length]; exact H.2.1,
    by rw [lhAdd_length]; exact H.2.2⟩

theorem foldlM_contig {α : Type} {f : (TravState × Int) → α → Option (TravState × Int)}
    {level : Nat}
    (hf : ∀ acc x r, f acc x = some r → ContigLevels acc.1.levels →
      level < acc.1.levels.length →
      ContigLevels r.1.levels ∧ acc.1.levels.length ≤ r.1.levels.length ∧
        level < r.1.levels.length) :
    ∀ (l : List α) acc r, l.foldlM f acc = some r → ContigLevels acc.1.levels →
      level < acc.1.levels.length →
      ContigLevels r.1.levels ∧ acc.1.levels.length ≤ r.1.levels.length ∧
        level < r.1.levels.length := by
  intro l
  induction l with
  | nil =>
    intro acc r hr hc hl
    rw [List.foldlM_nil] at hr
    cases hr
    exact ⟨hc, le_refl _, hl⟩
  | cons x xs ih =>
    intro acc r hr hc hl
    rw [List.foldlM_cons] at hr
    rcases Option.bind_eq_some.mp hr with ⟨mid, hmid, hrest⟩
    have h1 := hf acc x mid hmid hc hl
    have h2 := ih mid r hrest h1.1 h1.2.2
    exact ⟨h2.1, le_trans h1.2.1 h2.2.1, h2.2.2⟩

theorem processKey_contig {h : Heap} {next : JSVal → List String → TravState → Option TravState}
    {a level path}
    (hnext : ∀ c p s r, next c p s = some r → ContigLevels s.levels →
      level + 1 ≤ s.levels.length →
      ContigLevels r.levels ∧ s.levels.length ≤ r.levels.length ∧
        level + 1 < r.levels.length) :
    ∀ acc k r, processKey h next a level path acc k = some r →
      ContigLevels acc.1.levels → level < acc.1.levels.length →
      ContigLevels r.1.levels ∧ acc.1.levels.length ≤ r.1.levels.length ∧
        level < r.1.levels.length := by
  intro acc k r hpk hc hl
  unfold processKey at hpk
  rcases Option.map_eq_some'.mp hpk with ⟨st', hnx, hr⟩
  subst hr
  have hmn := hnext _ _ _ _ hnx
    (lhAdd_contig (lhAdd_contig hc level _) level _)
    (by rw [lhAdd_length, lhAdd_length]; omega)
  have hlen : st'.levels.length = st'.levels.length := rfl
  refine ⟨hmn.1, ?_, Nat.lt_of_succ_lt hmn.2.2⟩
  have h2 := hmn.2.1
  rw [lhAdd_length, lhAdd_length] at h2
  exact h2

theorem processElem_contig {h : Heap} {next : JSVal → List String → TravState → Option TravState}
    {level path}
    (hnext : ∀ c p s r, next c p s = some r → ContigLevels s.levels →
      level + 1 ≤ s.levels.length →
      ContigLevels r.levels ∧ s.levels.length ≤ r.levels.length ∧
        level + 1 < r.levels.length) :
    ∀ acc q r, processElem h next level path acc q = some r →
      ContigLevels acc.1.levels → level < acc.1.levels.length →
      ContigLevels r.1.levels ∧ acc.1.levels.length ≤ r.1.levels.length ∧
        level < r.1.levels.length := by
  intro acc q r hpe hc hl
  unfold processElem at hpe
  rcases Option.map_eq_some'.mp hpe with ⟨st', hnx, hr⟩
  subst hr
  have hmn := hnext _ _ _ _ hnx
    (lhAdd_contig (lhAdd_contig hc level _) level _)
    (by rw [lhAdd_length, lhAdd_length]; omega)
  refine ⟨hmn.1, ?_, Nat.lt_of_succ_lt hmn.2.2⟩
  have h2 := hmn.2.1
  rw [lhAdd_length, lhAdd_length] at h2
  exact h2

theorem processStructure_contig (h : Heap) :
    ∀ fuel v level path st st', processStructure h fuel v level path st = some st' →
      ContigLevels st.levels → level ≤ st.levels.length →
      ContigLevels st'.levels ∧ st.levels.length ≤ st'.levels.length ∧
        level < st'.levels.length := by
  intro fuel
  induction fuel with
  | zero =>
    intro v level path st st' hps
    exact absurd hps (by simp [processStructure])
  | succ fuel ih =>
    intro v level path st st' hps hc hle
    simp only [processStructure] at hps
    split at hps
    · cases hps
      exact lhAdd_triple _ (lhInit_contig hc hle)
    · cases v with
      | ref a =>
        dsimp only at hps
        rcases hom : st.objectMap.lookup a with _ | circ <;> rw [hom] at hps <;>
          dsimp only at hps
        · split at hps
          · cases hps
            exact lhAdd_triple _ (lhAdd_triple _ (lhInit_contig hc hle))
          · split at hps
            · rcases Option.map_eq_some'.mp hps with ⟨pr, hfold, hpr⟩
              subst hpr
              obtain ⟨hr1, hr2, hr3⟩ := foldlM_contig (processKey_contig
                  (fun c p s r hr => ih c (level + 1) p s r hr)) _ _ _ hfold
                  (lhAdd_contig (lhAdd_contig (lhInit_contig hc hle).1 level _) level _)
                  (by dsimp only; rw [lhAdd_length, lhAdd_length]
                      exact (lhInit_contig hc hle).2.2)
              refine ⟨hr1, ?_, hr3⟩
              dsimp only at hr2
              rw [lhAdd_length, lhAdd_length] at hr2
              exact le_trans (lhInit_contig hc hle).2.1 hr2
            · rcases Option.map_eq_some'.mp hps with ⟨pr, hfold, hpr⟩
              subst hpr
              obtain ⟨hr1, hr2, hr3⟩ := foldlM_contig (processElem_contig
                  (fun c p s r hr => ih c (level + 1) p s r hr)) _ _ _ hfold
                  (lhAdd_contig (lhAdd_contig (lhAdd_contig (lhInit_contig hc hle).1 level _)
                    level _) level _)
                  (by dsimp only; rw [lhAdd_length, lhAdd_length, lhAdd_length]
                      exact (lhInit_contig hc hle).2.2)
              refine ⟨hr1, ?_, hr3⟩
              dsimp only at hr2
              rw [lhAdd_length, lhAdd_length, lhAdd_length] at hr2
              exact le_trans (lhInit_contig hc hle).2.1 hr2
        · cases hps
          exact lhAdd_triple _ (lhAdd_triple _ (lhInit_contig hc hle))
      | vnum => cases hps; exact lhAdd_triple _ (lhInit_contig hc hle)
      | vstr => cases hps; exact lhAdd_triple _ (lhInit_contig hc hle)
      | vbool => cases hps; exact lhAdd_triple _ (lhInit_contig hc hle)
      | vbig => cases hps; exact lhAdd_triple _ (lhInit_contig hc hle)
      | vundef => cases hps; exact lhAdd_triple _ (lhInit_contig hc hle)
      | vsym => cases hps; exact lhAdd_triple _ (lhInit_contig hc hle)
      | vfunc => cases hps; exact lhAdd_triple _ (lhInit_contig hc hle)
      | vnull => cases hps; exact lhAdd_triple _ (lhInit_contig hc hle)


/-! ## Claim C2: shape of a collision-mode identifier -/

theorem sorted_of_map_fst_range {l : List (Nat × Int)}
    (hl : l.map Prod.fst = List.range l.length) : List.Sorted levelLe l := by
  have hp : List.Pairwise (· ≤ ·) (l.map Prod.fst) := by
    rw [hl]
    exact (List.pairwise_lt_range _).imp le_of_lt
  exact hp.of_map Prod.fst (fun a b hab => hab)

theorem contig_decomp {m : List (Nat × Int)} (hc : ContigLevels m) (hlen : 2 ≤ m.length) :
    ∃ v₀ rest, m = (0, v₀) :: rest ∧ rest ≠ [] ∧
      rest.map Prod.fst = (List.range rest.length).map Nat.succ := by
  rcases m with _ | ⟨⟨k, v⟩, rest⟩
  · simp at hlen
  · have hm := hc
    simp only [ContigLevels, List.map_cons, List.length_cons,
      List.range_succ_eq_map] at hm
    injection hm with hk hrest
    subst hk
    refine ⟨v, rest, rfl, ?_, hrest⟩
    intro hnil
    subst hnil
    simp at hlen

theorem contig_filter_pos {v₀ : Int} {rest : List (Nat × Int)}
    (hrest : rest.map Prod.fst = (List.range rest.length).map Nat.succ) :
    ((0, v₀) :: rest).filter (fun p => decide (0 < p.1)) = rest := by
  rw [List.filter_cons, if_neg (by simp)]
  refine List.filter_eq_self.mpr ?_
  intro p hp
  have hmem : p.1 ∈ rest.map Prod.fst := List.mem_map_of_mem _ hp
  rw [hrest] at hmem
  rcases List.mem_map.mp hmem with ⟨i, _, hi⟩
  rw [← hi]
  simp

theorem jsJoin_cons_cons (sep a b : String) (l : List String) :
    jsJoin sep (a :: b :: l) = a ++ sep ++ jsJoin sep (b :: l) := rfl

theorem hfmt0 (cnt : Int) : fmtLevelEntry (0, cnt) = "L0:" ++ toString cnt := by
  show "L" ++ toString (0 : Nat) ++ ":" ++ toString cnt = "L0:" ++ toString cnt
  rw [show ("L" ++ toString (0 : Nat) ++ ":" : String) = "L0:" from by decide]

theorem collision_id_format {m : List (Nat × Int)} (hc : ContigLevels m) (hlen : 2 ≤ m.length)
    (cnt : Int) :
    fullIdOf (setAssoc m 0 cnt) =
      "L0:" ++ toString cnt ++ "-" ++ structureSignatureOf m := by
  obtain ⟨v₀, rest, hm, hne, hrest⟩ := contig_decomp hc hlen
  subst hm
  have hsorted : List.Sorted levelLe ((0, v₀) :: rest) := sorted_of_map_fst_range hc
  have hsorted' : List.Sorted levelLe rest := (List.sorted_cons.mp hsorted).2
  have hsorted2 : List.Sorted levelLe ((0, cnt) :: rest) :=
    List.sorted_cons.mpr ⟨fun b _ => Nat.zero_le b.1, hsorted'⟩
  have hset : setAssoc ((0, v₀) :: rest) 0 cnt = (0, cnt) :: rest := by
    simp [setAssoc]
  rw [hset]
  unfold fullIdOf structureSignatureOf
  rw [contig_filter_pos hrest, sortLevelEntries_of_sorted hsorted2,
    sortLevelEntries_of_sorted hsorted']
  rcases rest with _ | ⟨r, rest'⟩
  · exact absurd rfl hne
  · rw [List.map_cons, List.map_cons, jsJoin_cons_cons, hfmt0, ← List.map_cons]

theorem len_of_sig_ne {m : List (Nat × Int)} (hc : ContigLevels m)
    (hs : structureSignatureOf m ≠ "") : 2 ≤ m.length := by
  by_contra hlen
  push_neg at hlen
  apply hs
  rcases m with _ | ⟨⟨k, v⟩, rest⟩
  · rfl
  · rcases rest with _ | ⟨q, rest'⟩
    · have h1 : [k] = [0] := by
        have hh := hc
        simp only [ContigLevels, List.map_cons, List.map_nil, List.length_cons,
          List.length_nil] at hh
        rw [show List.range 1 = [0] from by decide] at hh
        exact hh
      injection h1 with hk _
      subst hk
      rfl
    · simp only [List.length_cons] at hlen
      exact absurd hlen (by omega)

theorem unvisited_le_heap (h : Heap) : unvisited h [] ≤ h.length := by
  refine le_trans (List.length_filter_le _ _) ?_
  simp

/-- In collision mode (`newIdOnCollision: true`), one call on a
non-empty container returns `L0:<count>-<signature>` and bumps the
signature's counter, leaving the key map canonical. -/
theorem genId_collision_char (h : Heap) (a : Nat) (g : GenomeState)
    (hEO : isEmptyObjectAt h (.ref a) = false) (hEA : isEmptyArrayAt h (.ref a) = false)
    (hcan : CanonicalKm g.keyMap)
    (hsig : pureSigOf h (.ref a) ≠ "") :
    ∃ g', generateStructureId h (.ref a) (some ⟨some true⟩) g
        = some ("L0:" ++ toString ((g.counter.lookup (pureSigOf h (.ref a))).getD 0)
            ++ "-" ++ pureSigOf h (.ref a), g') ∧
      g'.counter = setAssoc g.counter (pureSigOf h (.ref a))
          (((g.counter.lookup (pureSigOf h (.ref a))).getD 0) + 1) ∧
      CanonicalKm g'.keyMap := by
  have htot := processStructure_total h (h.length + 1) (.ref a) 0 [] ⟨[], [], g.keyMap⟩
    (lt_of_le_of_lt (unvisited_le_heap h) (Nat.lt_succ_self _))
  rcases hts : processStructure h (h.length + 1) (.ref a) 0 [] ⟨[], [], g.keyMap⟩ with _ | ts
  · rw [hts] at htot
    simp at htot
  · have hrel := processStructure_canonical h (h.length + 1) (.ref a) 0 []
      ⟨[], [], g.keyMap⟩ ⟨[], [], []⟩ rfl rfl hcan canonicalKm_nil
    rw [hts] at hrel
    rcases hp : processStructure h (h.length + 1) (.ref a) 0 [] ⟨[], [], []⟩ with _ | ts₀ <;>
      rw [hp] at hrel
    · exact hrel.elim
    · have hsig_eq : structureSignatureOf ts.levels = pureSigOf h (.ref a) := by
        unfold pureSigOf
        rw [hp]
        exact congrArg structureSignatureOf hrel.1
      have hcontig := processStructure_contig h (h.length + 1) (.ref a) 0 []
        ⟨[], [], g.keyMap⟩ ts hts rfl (Nat.zero_le _)
      have hlen2 : 2 ≤ ts.levels.length :=
        len_of_sig_ne hcontig.1 (by rw [hsig_eq]; exact hsig)
      unfold generateStructureId
      rw [if_neg (by simp [hEO]), if_neg (by simp [hEA])]
      dsimp only [Option.getD]
      rw [if_neg (fun hcond => hcond.1 rfl), hts]
      dsimp only
      rw [if_pos (show (true : Bool) = true from rfl)]
      dsimp only
      rw [if_neg (show ¬((¬(true : Bool) = true)) from fun hcond => hcond rfl)]
      rw [hsig_eq, collision_id_format hcontig.1 hlen2, hsig_eq]
      refine ⟨_, rfl, ?_, ?_⟩
      · split <;> rfl
      · split <;> exact hrel.2.2.1

theorem genSeq_collision (h : Heap) (s : String) :
    ∀ (vs : List JSVal) (g : GenomeState) (c : Int),
      CanonicalKm g.keyMap → (g.counter.lookup s).getD 0 = c →
      (∀ v ∈ vs, ∃ a, v = JSVal.ref a ∧ isEmptyObjectAt h v = false ∧
        isEmptyArrayAt h v = false ∧ pureSigOf h v = s) →
      s ≠ "" →
      ∃ gN, generateSeq h (some ⟨some true⟩) vs g
        = some ((List.range vs.length).map
            (fun i : Nat => "L0:" ++ toString (c + (i : Int)) ++ "-" ++ s), gN) := by
  intro vs
  induction vs with
  | nil =>
    intro g c _ _ _ _
    exact ⟨g, rfl⟩
  | cons v vs ih =>
    intro g c hcan hcnt hvs hs
    obtain ⟨a, hva, hEO, hEA, hps⟩ := hvs v (by simp)
    subst hva
    obtain ⟨g', hgen, hctr, hcan'⟩ :=
      genId_collision_char h a g hEO hEA hcan (by rw [hps]; exact hs)
    rw [hps] at hgen hctr
    rw [hcnt] at hgen hctr
    obtain ⟨gN, hrec⟩ := ih g' (c + 1) hcan'
      (by rw [hctr, lookup_setAssoc_self]; rfl)
      (fun w hw => hvs w (by simp [hw])) hs
    have hlist : (List.range (vs.length + 1)).map
        (fun i : Nat => "L0:" ++ toString (c + (i : Int)) ++ "-" ++ s)
        = ("L0:" ++ toString c ++ "-" ++ s) ::
          (List.range vs.length).map
            (fun i : Nat => "L0:" ++ toString ((c + 1) + (i : Int)) ++ "-" ++ s) := by
      rw [List.range_succ_eq_map, List.map_cons, List.map_map]
      refine congrArg₂ List.cons ?_ ?_
      · exact congrArg (fun t : Int => "L0:" ++ toString t ++ "-" ++ s) (by push_cast; ring)
      · refine List.map_congr_left ?_
        intro i _
        exact congrArg (fun t : Int => "L0:" ++ toString t ++ "-" ++ s) (by push_cast; ring)
    refine ⟨gN, ?_⟩
    simp only [generateSeq]
    rw [hgen]
    dsimp only
    rw [hrec]
    dsimp only
    rw [List.length_cons, hlist]

/-- C2: In disambiguating mode (`newIdOnCollision: true`), for every `N`
and every sequence of `N` successive `generateStructureId` calls on
(non-empty container) values sharing one structural signature `s`,
starting from a state in which `s` is unregistered in the collision
counter, the `N` returned identifiers are pairwise distinct, their
segments at depths `≥ 1` are identical (the shared `-`-joined signature
`s`), and their depth-0 segments carry the values `0, 1, …, N-1` in call
order. -/
theorem c2_disambiguation_monotonic (h : Heap) (vs : List JSVal) (s : String) (g : GenomeState)
    (hcan : CanonicalKm g.keyMap)
    (hfresh : g.counter.lookup s = none)
    (hvs : ∀ v ∈ vs, ∃ a, v = JSVal.ref a ∧ isEmptyObjectAt h v = false ∧
      isEmptyArrayAt h v = false ∧ pureSigOf h v = s)
    (hs : s ≠ "") :
    ∃ gN, generateSeq h (some ⟨some true⟩) vs g
        = some ((List.range vs.length).map
            (fun i : Nat => "L0:" ++ toString (i : Int) ++ "-" ++ s), gN) ∧
      ((List.range vs.length).map
          (fun i : Nat => "L0:" ++ toString (i : Int) ++ "-" ++ s)).Pairwise (· ≠ ·) := by
  obtain ⟨gN, hseq⟩ := genSeq_collision h s vs g 0 hcan (by rw [hfresh]; rfl) hvs hs
  have hlist0 : (List.range vs.length).map
      (fun i : Nat => "L0:" ++ toString ((0 : Int) + (i : Int)) ++ "-" ++ s)
      = (List.range vs.length).map
          (fun i : Nat => "L0:" ++ toString (i : Int) ++ "-" ++ s) := by
    refine List.map_congr_left ?_
    intro i _
    exact congrArg (fun t : Int => "L0:" ++ toString t ++ "-" ++ s) (zero_add _)
  rw [hlist0] at hseq
  refine ⟨gN, hseq, ?_⟩
  have hinj : Function.Injective
      (fun i : Nat => "L0:" ++ toString (i : Int) ++ "-" ++ s) := by
    intro i j hij
    exact l0_prefix_inj s i j hij
  exact (List.nodup_range vs.length).map hinj

theorem c2_witness :
    (CanonicalKm initialState.keyMap ∧
     initialState.counter.lookup (pureSigOf wObjHeap (JSVal.ref 0)) = none ∧
     (∀ v ∈ [JSVal.ref 0, JSVal.ref 1], ∃ a, v = JSVal.ref a ∧
        isEmptyObjectAt wObjHeap v = false ∧ isEmptyArrayAt wObjHeap v = false ∧
        pureSigOf wObjHeap v = pureSigOf wObjHeap (JSVal.ref 0)) ∧
     pureSigOf wObjHeap (JSVal.ref 0) ≠ "") ∧
    (∃ gN, generateSeq wObjHeap (some ⟨some true⟩) [JSVal.ref 0, JSVal.ref 1] initialState
        = some ((List.range ([JSVal.ref 0, JSVal.ref 1] : List JSVal).length).map
            (fun i : Nat => "L0:" ++ toString (i : Int) ++ "-"
              ++ pureSigOf wObjHeap (JSVal.ref 0)), gN) ∧
      ((List.range ([JSVal.ref 0, JSVal.ref 1] : List JSVal).length).map
          (fun i : Nat => "L0:" ++ toString (i : Int) ++ "-"
            ++ pureSigOf wObjHeap (JSVal.ref 0))).Pairwise (· ≠ ·)) := by
  have hhvs : ∀ v ∈ [JSVal.ref 0, JSVal.ref 1], ∃ a, v = JSVal.ref a ∧
      isEmptyObjectAt wObjHeap v = false ∧ isEmptyArrayAt wObjHeap v = false ∧
      pureSigOf wObjHeap v = pureSigOf wObjHeap (JSVal.ref 0) := by
    intro v hv
    simp only [List.mem_cons, List.not_mem_nil, or_false] at hv
    rcases hv with rfl | rfl
    · exact ⟨0, rfl, by decide, by decide, rfl⟩
    · exact ⟨1, rfl, by decide, by decide, by decide⟩
  exact ⟨⟨canonicalKm_nil, rfl, hhvs, by decide⟩,
    c2_disambiguation_monotonic wObjHeap [JSVal.ref 0, JSVal.ref 1] _ initialState
      canonicalKm_nil rfl hhvs (by decide)⟩

end Genome
